import Mathlib

/-!
# txpool JSON-RPC endpoint (`jsonrpc/txpool_endpoint.go`)

A shallow embedding of the three endpoint operations `Content`, `Inspect` and `Status`
and of the two record constructors `toGethPendingTransaction` / `toGethQueuedTransaction`.

Modelling conventions.

* A Go `[]byte` is `Option (List Nat)`: `none` is the nil slice, `some []` a zero-length
  non-nil slice. A `*big.Int` is `Option Int`, a `*types.Address` is `Option types.Address`,
  an `interface{}` field is an `Option` whose `none` is the nil interface.
* A `*types.Transaction` is an index into a heap (`List types.Transaction`); an index outside
  the heap stands for the nil pointer. Functions writing through such a pointer return the
  updated heap.
* A Go map is an association list; `range` visits the entries in list order. Since the list
  is arbitrary, a statement for all lists covers every iteration order. A list representing
  a map has pairwise distinct keys (`GoMap.WF`).
* A run-time panic (nil dereference, write to a nil map) is the result `none`.
* `int` counters hold sums of lengths of in-memory maps, which stay far below `2^63`,
  so they are natural numbers.
-/

/-! ## The `types` package: declarations used by the endpoint -/

namespace types

/-- Modelled from the spec: `types.Address`, a fixed-width account identifier, declared
outside the endpoint file; represented by its numeric value. -/
structure Address where
  id : Nat
  deriving DecidableEq

/-- Modelled from the spec: `types.Hash`, a fixed-width hash, declared outside the endpoint
file; represented by its numeric value. -/
structure Hash where
  id : Nat
  deriving DecidableEq

/-- Modelled from the spec: `types.Transaction`, declared outside the endpoint file; the
fields are those the endpoint reads, with the Go types its conversions require
(`*t.GasPrice` and `*t.Value` dereference a `*big.Int`, `t.R == nil` tests a `[]byte`). -/
structure Transaction where
  Nonce : Nat
  GasPrice : Option Int
  Gas : Nat
  To : Option Address
  Value : Option Int
  Input : Option (List Nat)
  V : Nat
  R : Option (List Nat)
  S : Option (List Nat)
  Hash : types.Hash
  From : Address
  deriving DecidableEq

/-- Modelled from the spec: `types.Header`, declared outside the endpoint file; the two
fields the endpoint sets when it builds the genesis stub. -/
structure Header where
  Hash : types.Hash
  Number : Nat
  deriving DecidableEq

/-- Modelled from the spec: `types.Block`, declared outside the endpoint file. -/
structure Block where
  Header : types.Header
  deriving DecidableEq

/-- Modelled from the spec: the accessor `Block.Hash()` (a block exposes `hash()`),
declared outside the endpoint file; it reads the header. -/
def Block.Hash (b : Block) : types.Hash := b.Header.Hash

/-- Modelled from the spec: the accessor `Block.Number()` (a block exposes `number()`),
declared outside the endpoint file; it reads the header. -/
def Block.Number (b : Block) : Nat := b.Header.Number

end types

/-! ## Go maps -/

/-- A Go map as an association list. -/
abbrev GoMap (K V : Type) := List (K × V)

namespace GoMap

variable {K V W : Type}

/-- The read `m[k]` (with presence). -/
def find [DecidableEq K] : GoMap K V → K → Option V
  | [], _ => none
  | (k', v) :: rest, k => if k' = k then some v else find rest k

/-- The write `m[k] = v`: replaces the entry of `k` if there is one, adds one otherwise. -/
def put [DecidableEq K] : GoMap K V → K → V → GoMap K V
  | [], k, v => [(k, v)]
  | (k', v') :: rest, k, v => if k' = k then (k, v) :: rest else (k', v') :: put rest k v

/-- The nested write `m[a][k] = v`. Reading `m[a]` on a missing key gives a nil inner map,
and writing to a nil map panics. -/
def putInner [DecidableEq K] [DecidableEq W] (m : GoMap K (GoMap W V)) (a : K) (k : W) (v : V) :
    Option (GoMap K (GoMap W V)) :=
  match find m a with
  | none => none
  | some inner => some (put m a (put inner k v))

/-- The nested read `m[a][k]` (with presence). -/
def find2 [DecidableEq K] [DecidableEq W] (m : GoMap K (GoMap W V)) (a : K) (k : W) : Option V :=
  match find m a with
  | none => none
  | some inner => find inner k

/-- The map obtained from `m` by one write per entry of `l`, in list order: the entry
`(k, v)` writes `f v` under the key `g k`; `none` as soon as some `f v` is `none`. -/
def build {K' : Type} [DecidableEq K'] (g : K → K') (f : V → Option W) :
    List (K × V) → GoMap K' W → Option (GoMap K' W)
  | [], m => some m
  | (k, v) :: rest, m =>
    match f v with
    | none => none
    | some w => build g f rest (put m (g k) w)

/-- The keys of a list representing a map are pairwise distinct. -/
def WF (m : GoMap K V) : Prop := (m.map Prod.fst).Nodup

/-- A nested map is well formed at both levels. -/
def WF2 (m : GoMap K (GoMap W V)) : Prop := WF m ∧ ∀ e ∈ m, WF e.2

/-- The total number of entries of a nested map: the sum of the sizes of its inner maps. -/
def entries2 (m : GoMap K (GoMap W V)) : Nat := (m.map (fun e => e.2.length)).sum

end GoMap

/-! ## The endpoint -/

namespace jsonrpc

/-- A `*types.Transaction`: an index into the heap. -/
abbrev TxPtr := Nat

/-- The transactions the pool's pointers refer to. -/
abbrev Heap := List types.Transaction

/-- The store behind the dispatcher (`t.d.store`): the pool snapshot returned by `GetTxs()`
and the two lookups, each returning its value together with the `ok` flag. -/
structure Store where
  GetTxs : GoMap types.Address (GoMap Nat TxPtr) × GoMap types.Address (GoMap Nat TxPtr)
  ReadTxLookup : types.Hash → types.Hash × Bool
  GetBlockByHash : types.Hash → Bool → Option types.Block × Bool

structure gethPendingTransaction where
  Nonce : Nat
  GasPrice : Int
  Gas : Nat
  To : Option types.Address
  Value : Int
  Input : Option (List Nat)
  V : Nat
  R : Option (List Nat)
  S : Option (List Nat)
  Hash : types.Hash
  From : types.Address
  BlockHash : Option types.Hash
  BlockNumber : Option Nat
  TxIndex : Option Nat
  deriving DecidableEq

structure gethQueuedTransaction where
  Nonce : Nat
  GasPrice : Int
  Gas : Nat
  To : Option types.Address
  Value : Int
  Input : Option (List Nat)
  V : Nat
  R : Option (List Nat)
  S : Option (List Nat)
  Hash : types.Hash
  From : types.Address
  BlockHash : types.Hash
  BlockNumber : Nat
  TxIndex : Nat
  deriving DecidableEq

/-- The response of `Content`; a map field is `none` when the Go map is nil. -/
structure ContentResponse where
  Pending : Option (GoMap types.Address (GoMap Nat gethPendingTransaction))
  Queued : Option (GoMap types.Address (GoMap Nat gethQueuedTransaction))
  deriving DecidableEq

/-- The response of `Inspect`; a map field is `none` when the Go map is nil. -/
structure InspectResponse where
  Pending : Option (GoMap String (GoMap String String))
  Queued : Option (GoMap String (GoMap String String))
  deriving DecidableEq

structure StatusResponse where
  Pending : Nat
  Queued : Nat
  deriving DecidableEq

/-- The lines `if t.R == nil { t.R = []byte{0} }` and the same for `S`: the transaction
as the constructors leave it. -/
def defaultSig (t : types.Transaction) : types.Transaction :=
  let t := if t.R = none then { t with R := some [0] } else t
  if t.S = none then { t with S := some [0] } else t

/-- The conversion `argUint64(i)` of an `int`: the value modulo `2^64`. -/
def argUint64OfInt (i : Int) : Nat := (i % (2 ^ 64 : Int)).toNat

/-- `toGethPendingTransaction(t, b)`: the transaction as written back through the pointer
`t`, and the record; `none` when `*t.GasPrice` or `*t.Value` dereferences nil. -/
def toGethPendingTransaction (t : types.Transaction) (b : types.Block) :
    Option (types.Transaction × gethPendingTransaction) :=
  let t := defaultSig t
  match t.GasPrice, t.Value with
  | some gasPrice, some value =>
    some (t,
      { Nonce := t.Nonce
        GasPrice := gasPrice
        Gas := t.Gas
        To := t.To
        Value := value
        Input := t.Input
        V := t.V
        R := t.R
        S := t.S
        Hash := t.Hash
        From := t.From
        BlockHash := some b.Hash
        BlockNumber := none
        TxIndex := none })
  | _, _ => none

/-- `toGethQueuedTransaction(t, b, txIndex)`: the transaction as written back through the
pointer `t`, and the record; `none` when `*t.GasPrice` or `*t.Value` dereferences nil. -/
def toGethQueuedTransaction (t : types.Transaction) (b : types.Block) (txIndex : Int) :
    Option (types.Transaction × gethQueuedTransaction) :=
  let t := defaultSig t
  match t.GasPrice, t.Value with
  | some gasPrice, some value =>
    some (t,
      { Nonce := t.Nonce
        GasPrice := gasPrice
        Gas := t.Gas
        To := t.To
        Value := value
        Input := t.Input
        V := t.V
        R := t.R
        S := t.S
        Hash := t.Hash
        From := t.From
        BlockHash := b.Hash
        BlockNumber := b.Number
        TxIndex := argUint64OfInt txIndex })
  | _, _ => none

/-- The block handed to the constructors in `Content`: the lines
`blockHash, _ := ReadTxLookup(tx.Hash)`, `block, _ := GetBlockByHash(blockHash, false)`
and the replacement of a nil block by a header with that hash and number 0. -/
def contentBlock (st : Store) (txHash : types.Hash) : types.Block :=
  let blockHash := (st.ReadTxLookup txHash).1
  match (st.GetBlockByHash blockHash false).1 with
  | none => { Header := { Hash := blockHash, Number := 0 } }
  | some block => block

/-- The inner loop of `Content`, `for nonce, tx := range nonces`, for either set; `mk` is
the record constructor of the set. The state is the heap and the response map so far. -/
def contentNonces {R : Type} (mk : types.Transaction → types.Block → Option (types.Transaction × R))
    (st : Store) (address : types.Address) :
    List (Nat × TxPtr) → Heap × GoMap types.Address (GoMap Nat R) →
      Option (Heap × GoMap types.Address (GoMap Nat R))
  | [], s => some s
  | (nonce, tx) :: rest, (heap, rpcTxns) =>
    match heap[tx]? with
    | none => none
    | some t =>
      match mk t (contentBlock st t.Hash) with
      | none => none
      | some (t', r) =>
        match GoMap.putInner rpcTxns address nonce r with
        | none => none
        | some rpcTxns' => contentNonces mk st address rest (heap.set tx t', rpcTxns')

/-- The outer loop of `Content`, `for address, nonces := range txs`, for either set. -/
def contentAddresses {R : Type} (mk : types.Transaction → types.Block → Option (types.Transaction × R))
    (st : Store) :
    List (types.Address × GoMap Nat TxPtr) → Heap × GoMap types.Address (GoMap Nat R) →
      Option (Heap × GoMap types.Address (GoMap Nat R))
  | [], s => some s
  | (address, nonces) :: rest, (heap, rpcTxns) =>
    match contentNonces mk st address nonces (heap, GoMap.put rpcTxns address []) with
    | none => none
    | some s => contentAddresses mk st rest s

/-- What a call that returns leaves behind: the response, the error and the heap. -/
structure Returned (α : Type) where
  resp : α
  err : Option String
  heap : Heap
  deriving DecidableEq

/-- `Txpool.Content()`; `none` when the call panics. -/
def Content (st : Store) (heap : Heap) : Option (Returned ContentResponse) :=
  match contentAddresses toGethPendingTransaction st st.GetTxs.1 (heap, []) with
  | none => none
  | some (heap1, pendingRpcTxns) =>
    match contentAddresses (fun t b => toGethQueuedTransaction t b 0) st st.GetTxs.2
        (heap1, []) with
    | none => none
    | some (heap2, queuedRpcTxns) =>
      some { resp := { Pending := some pendingRpcTxns, Queued := some queuedRpcTxns }
             err := none
             heap := heap2 }

/-- The verb `%d` applied to a `*big.Int`: the decimal digits, `<nil>` for a nil pointer. -/
def fmtBig : Option Int → String
  | none => "<nil>"
  | some v => toString v

/-- The verb `%d` applied to a `uint64`, and `fmt.Sprint` of a `uint64`: the decimal digits. -/
def fmtUint (n : Nat) : String := toString n

/-- The message `fmt.Sprintf("%d wei + %d gas x %d wei", tx.Value, tx.Gas, tx.GasPrice)`. -/
def inspectMsg (t : types.Transaction) : String :=
  fmtBig t.Value ++ " wei + " ++ fmtUint t.Gas ++ " gas x " ++ fmtBig t.GasPrice ++ " wei"

/-- The inner loop of `Inspect`, for either set; `key` is `address.String()`. -/
def inspectNonces (heap : Heap) (key : String) :
    List (Nat × TxPtr) → GoMap String (GoMap String String) →
      Option (GoMap String (GoMap String String))
  | [], rpcTxns => some rpcTxns
  | (nonce, tx) :: rest, rpcTxns =>
    match heap[tx]? with
    | none => none
    | some t =>
      match GoMap.putInner rpcTxns key (fmtUint nonce) (inspectMsg t) with
      | none => none
      | some rpcTxns' => inspectNonces heap key rest rpcTxns'

/-- The outer loop of `Inspect`, for either set; `addrString` is `Address.String()`, which
is declared outside the endpoint file. -/
def inspectAddresses (addrString : types.Address → String) (heap : Heap) :
    List (types.Address × GoMap Nat TxPtr) → GoMap String (GoMap String String) →
      Option (GoMap String (GoMap String String))
  | [], rpcTxns => some rpcTxns
  | (address, nonces) :: rest, rpcTxns =>
    match inspectNonces heap (addrString address) nonces
        (GoMap.put rpcTxns (addrString address) []) with
    | none => none
    | some rpcTxns' => inspectAddresses addrString heap rest rpcTxns'

/-- `Txpool.Inspect()`; `none` when the call panics. It writes through no pointer. -/
def Inspect (addrString : types.Address → String) (st : Store) (heap : Heap) :
    Option (InspectResponse × Option String) :=
  match inspectAddresses addrString heap st.GetTxs.1 [] with
  | none => none
  | some pendingRpcTxns =>
    match inspectAddresses addrString heap st.GetTxs.2 [] with
    | none => none
    | some queuedRpcTxns =>
      some ({ Pending := some pendingRpcTxns, Queued := some queuedRpcTxns }, none)

/-- The loop `for _, t := range txs { count += len(t) }` of `Status`. -/
def statusCount : List (types.Address × GoMap Nat TxPtr) → Nat → Nat
  | [], count => count
  | (_, t) :: rest, count => statusCount rest (count + t.length)

/-- `Txpool.Status()`. It reads no transaction and cannot panic. -/
def Status (st : Store) : StatusResponse × Option String :=
  let pendingCount := statusCount st.GetTxs.1 0
  let queuedCount := statusCount st.GetTxs.2 0
  ({ Pending := pendingCount, Queued := queuedCount }, none)

/-! ## Reference definitions used to state the properties -/

/-- The record a constructor `mk` returns for the transaction at pointer `p` of the heap
`heap0`, with the block `Content` resolves for it; `none` when the pointer is nil or the
constructor panics. -/
def recordAt {R : Type} (mk : types.Transaction → types.Block → Option (types.Transaction × R))
    (st : Store) (heap0 : Heap) (p : TxPtr) : Option R :=
  match heap0[p]? with
  | none => none
  | some t => (mk t (contentBlock st t.Hash)).map Prod.snd

/-- The inner map built from the records `rec` of the pointers, one write per entry. -/
def innerOf {R : Type} (rec : TxPtr → Option R) (nonces : GoMap Nat TxPtr) (m : GoMap Nat R) :
    Option (GoMap Nat R) :=
  GoMap.build id rec nonces m

/-- The outer map built from the records `rec` of the pointers, one write per address. -/
def outerOf {R : Type} (rec : TxPtr → Option R) (txs : GoMap types.Address (GoMap Nat TxPtr))
    (m : GoMap types.Address (GoMap Nat R)) : Option (GoMap types.Address (GoMap Nat R)) :=
  GoMap.build id (fun nonces => innerOf rec nonces []) txs m

/-- The pointers stored in one set of the pool snapshot. -/
def ptrsOf (txs : GoMap types.Address (GoMap Nat TxPtr)) : List TxPtr :=
  txs.flatMap (fun e => e.2.map Prod.snd)

/-- The pointers reachable from `GetTxs()`. -/
def reachable (st : Store) : List TxPtr := ptrsOf st.GetTxs.1 ++ ptrsOf st.GetTxs.2

/-- The heap `heap` is `heap0` with the signature defaults written at the pointers of
`visited` and nothing else changed. -/
def HeapAt (heap0 : Heap) (visited : List TxPtr) (heap : Heap) : Prop :=
  ∀ p, (p ∈ visited → heap[p]? = (heap0[p]?).map defaultSig) ∧
    (p ∉ visited → heap[p]? = heap0[p]?)

/-- What the loops of `Content` use of a record constructor: it writes the signature
defaults back, and its record depends on the transaction only through them. -/
def MkLaw {R : Type} (mk : types.Transaction → types.Block → Option (types.Transaction × R)) :
    Prop :=
  (∀ t b t' r, mk t b = some (t', r) → t' = defaultSig t) ∧
    ∀ t b, (mk (defaultSig t) b).map Prod.snd = (mk t b).map Prod.snd

/-- The queued constructor as `Content` calls it, with `txIndex` 0. -/
def queuedMk (t : types.Transaction) (b : types.Block) :
    Option (types.Transaction × gethQueuedTransaction) :=
  toGethQueuedTransaction t b 0

/-- Every pointer of `ptrs` refers to a transaction of the heap (none is nil). -/
def AllPresent (heap : Heap) (ptrs : List TxPtr) : Prop :=
  ∀ p ∈ ptrs, p < heap.length

/-- Every transaction the pointers of `ptrs` refer to has a gas price and a value. -/
def AllPriced (heap : Heap) (ptrs : List TxPtr) : Prop :=
  ∀ p ∈ ptrs, ∀ t, heap[p]? = some t → t.GasPrice ≠ none ∧ t.Value ≠ none

/-- Two lists represent the same nested map: the same outer keys and the same value at
every pair of keys. -/
def SameMap2 {K W V : Type} [DecidableEq K] [DecidableEq W]
    (m m' : GoMap K (GoMap W V)) : Prop :=
  (∀ a, (GoMap.find m a).isSome = (GoMap.find m' a).isSome) ∧
    ∀ a k, GoMap.find2 m a k = GoMap.find2 m' a k

/-- The block context of the spec's resolver: the hash and number of the block fetched by
the looked-up hash, or the stub with the looked-up hash and number 0. -/
def specResolve (st : Store) (txHash : types.Hash) : types.Hash × Nat :=
  match (st.GetBlockByHash (st.ReadTxLookup txHash).1 false).1 with
  | some block => (block.Hash, block.Number)
  | none => ((st.ReadTxLookup txHash).1, 0)

/-- The response map `m` holds the records of the set `txs`: the same address keys, under
each address the same nonce keys (no nonces give an empty inner map), and at every pair of
keys the record `mk` returns for the pool's transaction there, with the block `Content`
resolves for it. -/
def RecordsOf {R : Type} (mk : types.Transaction → types.Block → Option (types.Transaction × R))
    (st : Store) (heap : Heap) (txs : GoMap types.Address (GoMap Nat TxPtr))
    (m : GoMap types.Address (GoMap Nat R)) : Prop :=
  (∀ a, GoMap.find txs a = none → GoMap.find m a = none) ∧
    ∀ a nonces, GoMap.find txs a = some nonces →
      ∃ inner, GoMap.find m a = some inner ∧ (nonces = [] → inner = []) ∧
        (∀ n, GoMap.find nonces n = none → GoMap.find inner n = none) ∧
        ∀ n p, GoMap.find nonces n = some p →
          ∃ t t' r, heap[p]? = some t ∧ mk t (contentBlock st t.Hash) = some (t', r) ∧
            GoMap.find inner n = some r

/-- The message `Inspect` writes for the transaction at pointer `p`; `none` when the
pointer is nil. -/
def msgAt (heap : Heap) (p : TxPtr) : Option String :=
  (heap[p]?).map inspectMsg

/-- The number a list of decimal digits denotes. -/
def decimalValue (cs : List Char) : Nat :=
  cs.foldl (fun acc c => 10 * acc + (c.toNat - 48)) 0

/-- A stringification of addresses: the decimal digits of the numeric value. -/
def exAddrString (a : types.Address) : String := fmtUint a.id

/-! ## Concrete pools -/

/-- A pending transaction with a nil `r` and a zero-length, non-nil `s`. -/
def exTx0 : types.Transaction :=
  { Nonce := 0, GasPrice := some 1000000000, Gas := 21000, To := none, Value := some 1000,
    Input := none, V := 27, R := none, S := some [], Hash := ⟨7⟩, From := ⟨1⟩ }

/-- A queued transaction with a nil `s`. -/
def exTx1 : types.Transaction :=
  { Nonce := 5, GasPrice := some 2, Gas := 30000, To := some ⟨1⟩, Value := some 0,
    Input := some [1], V := 28, R := some [1, 2], S := none, Hash := ⟨8⟩, From := ⟨2⟩ }

/-- A transaction without a gas price. -/
def exTxUnpriced : types.Transaction :=
  { Nonce := 0, GasPrice := none, Gas := 21000, To := none, Value := some 1000,
    Input := none, V := 27, R := none, S := none, Hash := ⟨7⟩, From := ⟨1⟩ }

def exHeap : Heap := [exTx0, exTx1]

def exBlock : types.Block := { Header := { Hash := ⟨9⟩, Number := 5 } }

/-- One pending and one queued transaction; no hash is found by `ReadTxLookup`, and
`GetBlockByHash` returns block 5 for every hash. -/
def exStore : Store :=
  { GetTxs := ([(⟨1⟩, [(0, 0)])], [(⟨2⟩, [(5, 1)])])
    ReadTxLookup := fun _ => (⟨0⟩, false)
    GetBlockByHash := fun _ _ => (some exBlock, true) }

/-- The pool of `exStore` with a store that finds no hash and no block. -/
def exStoreNoBlock : Store :=
  { GetTxs := ([(⟨1⟩, [(0, 0)])], [(⟨2⟩, [(5, 1)])])
    ReadTxLookup := fun _ => (⟨0⟩, false)
    GetBlockByHash := fun _ _ => (none, false) }

/-- A pool whose only transaction, pending, is at pointer 0. -/
def exStoreOne : Store :=
  { GetTxs := ([(⟨1⟩, [(0, 0)])], [])
    ReadTxLookup := fun _ => (⟨0⟩, false)
    GetBlockByHash := fun _ _ => (none, false) }

def exPendingRecord (blockHash : types.Hash) : gethPendingTransaction :=
  { Nonce := 0, GasPrice := 1000000000, Gas := 21000, To := none, Value := 1000,
    Input := none, V := 27, R := some [0], S := some [], Hash := ⟨7⟩, From := ⟨1⟩,
    BlockHash := some blockHash, BlockNumber := none, TxIndex := none }

def exQueuedRecord (blockHash : types.Hash) (blockNumber : Nat) : gethQueuedTransaction :=
  { Nonce := 5, GasPrice := 2, Gas := 30000, To := some ⟨1⟩, Value := 0,
    Input := some [1], V := 28, R := some [1, 2], S := some [0], Hash := ⟨8⟩, From := ⟨2⟩,
    BlockHash := blockHash, BlockNumber := blockNumber, TxIndex := 0 }

/-- The heap `exHeap` after a call of `Content`. -/
def exHeapAfter : Heap := [{ exTx0 with R := some [0] }, { exTx1 with S := some [0] }]

/-- What `Content` returns on `exStore` and `exHeap`. -/
def exOut : Returned ContentResponse :=
  { resp := { Pending := some [(⟨1⟩, [(0, exPendingRecord ⟨9⟩)])]
              Queued := some [(⟨2⟩, [(5, exQueuedRecord ⟨9⟩ 5)])] }
    err := none
    heap := exHeapAfter }

/-- What `Inspect` returns on `exStore` and `exHeap`. -/
def exInspectOut : InspectResponse × Option String :=
  ({ Pending := some [("1", [("0", "1000 wei + 21000 gas x 1000000000 wei")])]
     Queued := some [("2", [("5", "0 wei + 30000 gas x 2 wei")])] }, none)

/-- Two pending transactions under two addresses. -/
def exStoreTwo : Store :=
  { GetTxs := ([(⟨1⟩, [(0, 0)]), (⟨2⟩, [(5, 1)])], [])
    ReadTxLookup := fun _ => (⟨0⟩, false)
    GetBlockByHash := fun _ _ => (some exBlock, true) }

/-- The store `exStoreTwo` with the pending set visited in the other order. -/
def exStoreTwoSwapped : Store :=
  { GetTxs := ([(⟨2⟩, [(5, 1)]), (⟨1⟩, [(0, 0)])], [])
    ReadTxLookup := fun _ => (⟨0⟩, false)
    GetBlockByHash := fun _ _ => (some exBlock, true) }

/-- What `Content` returns on `exStoreTwo` and `exHeap`. -/
def exOutTwo : Returned ContentResponse :=
  { resp :=
      { Pending := some [(⟨1⟩, [(0, exPendingRecord ⟨9⟩)]),
          (⟨2⟩, [(5,
            { Nonce := 5, GasPrice := 2, Gas := 30000, To := some ⟨1⟩, Value := 0,
              Input := some [1], V := 28, R := some [1, 2], S := some [0], Hash := ⟨8⟩,
              From := ⟨2⟩, BlockHash := some ⟨9⟩, BlockNumber := none, TxIndex := none })])]
        Queued := some [] }
    err := none
    heap := exHeapAfter }

/-- The pending record with the fields of `t`, the gas price `gasPrice`, the value `value`
and the hash of `b`. -/
def pendingRecordOf (t : types.Transaction) (gasPrice value : Int) (b : types.Block) :
    gethPendingTransaction :=
  { Nonce := t.Nonce, GasPrice := gasPrice, Gas := t.Gas, To := t.To, Value := value,
    Input := t.Input, V := t.V, R := t.R, S := t.S, Hash := t.Hash, From := t.From,
    BlockHash := some b.Hash, BlockNumber := none, TxIndex := none }

/-- The queued record with the fields of `t`, the gas price `gasPrice`, the value `value`,
the hash and number of `b` and the index `i`. -/
def queuedRecordOf (t : types.Transaction) (gasPrice value : Int) (b : types.Block) (i : Int) :
    gethQueuedTransaction :=
  { Nonce := t.Nonce, GasPrice := gasPrice, Gas := t.Gas, To := t.To, Value := value,
    Input := t.Input, V := t.V, R := t.R, S := t.S, Hash := t.Hash, From := t.From,
    BlockHash := b.Hash, BlockNumber := b.Number, TxIndex := argUint64OfInt i }

/-- An empty pool. -/
def exStoreEmpty : Store :=
  { GetTxs := ([], [])
    ReadTxLookup := fun _ => (⟨0⟩, false)
    GetBlockByHash := fun _ _ => (none, false) }

/-- What `Content` returns on `exStoreNoBlock` and `exHeap`. -/
def exOutNoBlock : Returned ContentResponse :=
  { resp := { Pending := some [(⟨1⟩, [(0, exPendingRecord ⟨0⟩)])]
              Queued := some [(⟨2⟩, [(5, exQueuedRecord ⟨0⟩ 0)])] }
    err := none
    heap := exHeapAfter }

end jsonrpc

/-! ## Lemmas on Go maps -/

namespace GoMap
variable {K V W : Type}

theorem find_put_self [DecidableEq K] (m : GoMap K V) (k : K) (v : V) :
    find (put m k v) k = some v := by
  induction m with
  | nil => simp [put, find]
  | cons e rest ih =>
    obtain ⟨k', v'⟩ := e
    by_cases h : k' = k
    · simp [put, find, h]
    · simp [put, find, h, ih]

theorem find_put_ne [DecidableEq K] (m : GoMap K V) {k k' : K} (v : V) (h : k ≠ k') :
    find (put m k v) k' = find m k' := by
  induction m with
  | nil => simp [put, find, h]
  | cons e rest ih =>
    obtain ⟨k0, v0⟩ := e
    by_cases h0 : k0 = k
    · subst h0
      simp [put, find, h]
    · by_cases h1 : k0 = k'
      · subst h1
        simp [put, find, h0]
      · simp [put, find, h0, h1, ih]

theorem put_put [DecidableEq K] (m : GoMap K V) (k : K) (v w : V) :
    put (put m k v) k w = put m k w := by
  induction m with
  | nil => simp [put]
  | cons e rest ih =>
    obtain ⟨k0, v0⟩ := e
    by_cases h0 : k0 = k
    · simp [put, h0]
    · simp [put, h0, ih]

theorem put_of_find [DecidableEq K] (m : GoMap K V) (k : K) (v : V) (h : find m k = some v) :
    put m k v = m := by
  induction m with
  | nil => simp [find] at h
  | cons e rest ih =>
    obtain ⟨k0, v0⟩ := e
    by_cases h0 : k0 = k
    · simp only [find, h0, if_true, Option.some.injEq] at h
      simp [put, h0, h]
    · simp only [find, h0, if_false] at h
      simp [put, h0, ih h]

theorem find_eq_none_iff [DecidableEq K] (m : GoMap K V) (k : K) :
    find m k = none ↔ k ∉ m.map Prod.fst := by
  induction m with
  | nil => simp [find]
  | cons e rest ih =>
    obtain ⟨k0, v0⟩ := e
    by_cases h0 : k0 = k
    · simp [find, h0]
    · simp only [find, h0, if_false, ih, List.map_cons, List.mem_cons]
      constructor
      · intro h1 h2
        rcases h2 with h2 | h2
        · exact h0 h2.symm
        · exact h1 h2
      · intro h1 h2
        exact h1 (Or.inr h2)

theorem mem_of_find [DecidableEq K] (m : GoMap K V) (k : K) (v : V) (h : find m k = some v) :
    (k, v) ∈ m := by
  induction m with
  | nil => simp [find] at h
  | cons e rest ih =>
    obtain ⟨k0, v0⟩ := e
    by_cases h0 : k0 = k
    · simp [find, h0] at h
      simp [h0, h]
    · simp [find, h0] at h
      exact List.mem_cons_of_mem _ (ih h)

theorem find_of_mem [DecidableEq K] (m : GoMap K V) (hm : WF m) (k : K) (v : V)
    (h : (k, v) ∈ m) : find m k = some v := by
  induction m with
  | nil => simp at h
  | cons e rest ih =>
    obtain ⟨k0, v0⟩ := e
    simp only [WF, List.map_cons, List.nodup_cons] at hm
    rcases List.mem_cons.1 h with h1 | h1
    · simp only [Prod.mk.injEq] at h1
      simp [find, h1.1, h1.2]
    · have hne : k0 ≠ k := by
        intro hk
        apply hm.1
        rw [hk]
        exact List.mem_map.2 ⟨(k, v), h1, rfl⟩
      simp only [find, hne, if_false]
      exact ih hm.2 h1

end GoMap

namespace GoMap
variable {K V W K' : Type}

theorem build_find_not_mem [DecidableEq K'] (g : K → K') (f : V → Option W) :
    ∀ (l : List (K × V)) (m m' : GoMap K' W), build g f l m = some m' →
      ∀ k', k' ∉ l.map (fun e => g e.1) → find m' k' = find m k' := by
  intro l
  induction l with
  | nil =>
    intro m m' h k' _
    simp only [build, Option.some.injEq] at h
    rw [h]
  | cons e rest ih =>
    obtain ⟨k, v⟩ := e
    intro m m' h k' hk
    simp only [List.map_cons, List.mem_cons, not_or] at hk
    cases hf : f v with
    | none => simp [build, hf] at h
    | some w =>
      simp only [build, hf] at h
      rw [ih _ _ h k' hk.2]
      exact find_put_ne m w (fun e => hk.1 e.symm)

theorem build_find_mem [DecidableEq K'] (g : K → K') (f : V → Option W) :
    ∀ (l : List (K × V)) (m m' : GoMap K' W), (l.map (fun e => g e.1)).Nodup →
      build g f l m = some m' → ∀ e ∈ l, find m' (g e.1) = f e.2 := by
  intro l
  induction l with
  | nil =>
    intro m m' _ _ e he
    simp at he
  | cons e0 rest ih =>
    obtain ⟨k, v⟩ := e0
    intro m m' hnd h e he
    simp only [List.map_cons, List.nodup_cons] at hnd
    cases hf : f v with
    | none => simp [build, hf] at h
    | some w =>
      simp only [build, hf] at h
      rcases List.mem_cons.1 he with he | he
      · subst he
        rw [build_find_not_mem g f rest _ _ h (g k) hnd.1, find_put_self, hf]
      · exact ih _ _ hnd.2 h e he

theorem build_eq_none [DecidableEq K'] (g : K → K') (f : V → Option W) :
    ∀ (l : List (K × V)) (m : GoMap K' W), build g f l m = none → ∃ e ∈ l, f e.2 = none := by
  intro l
  induction l with
  | nil =>
    intro m h
    simp [build] at h
  | cons e0 rest ih =>
    obtain ⟨k, v⟩ := e0
    intro m h
    cases hf : f v with
    | none => exact ⟨(k, v), List.mem_cons_self _ _, hf⟩
    | some w =>
      simp only [build, hf] at h
      obtain ⟨e, he, h1⟩ := ih _ h
      exact ⟨e, List.mem_cons_of_mem _ he, h1⟩

theorem build_some_mem [DecidableEq K'] (g : K → K') (f : V → Option W) :
    ∀ (l : List (K × V)) (m m' : GoMap K' W), build g f l m = some m' →
      ∀ e ∈ l, f e.2 ≠ none := by
  intro l
  induction l with
  | nil =>
    intro m m' _ e he
    simp at he
  | cons e0 rest ih =>
    obtain ⟨k, v⟩ := e0
    intro m m' h e he
    cases hf : f v with
    | none => simp [build, hf] at h
    | some w =>
      simp only [build, hf] at h
      rcases List.mem_cons.1 he with he | he
      · subst he
        simp [hf]
      · exact ih _ _ h e he

theorem build_nil_of_nil [DecidableEq K'] (g : K → K') (f : V → Option W) (m' : GoMap K' W)
    (h : build g f [] [] = some m') : m' = [] := by
  simp only [build, Option.some.injEq] at h
  exact h.symm

end GoMap

/-! ## The loops of `Content` -/

namespace jsonrpc

theorem defaultSig_eq (t : types.Transaction) :
    defaultSig t = { t with R := some (t.R.getD [0]), S := some (t.S.getD [0]) } := by
  obtain ⟨n, gp, g, rcpt, v, i, vv, r, s, h, f⟩ := t
  cases r <;> cases s <;> simp [defaultSig]

theorem defaultSig_idem (t : types.Transaction) : defaultSig (defaultSig t) = defaultSig t := by
  simp [defaultSig_eq]

theorem defaultSig_Hash (t : types.Transaction) : (defaultSig t).Hash = t.Hash := by
  simp [defaultSig_eq]

theorem HeapAt_nil (heap0 : Heap) : HeapAt heap0 [] heap0 := by
  intro p
  simp

theorem HeapAt_read {heap0 heap : Heap} {V : List TxPtr} (hh : HeapAt heap0 V heap) (p : TxPtr) :
    heap[p]? = heap0[p]? ∨ heap[p]? = (heap0[p]?).map defaultSig := by
  by_cases hp : p ∈ V
  · exact Or.inr ((hh p).1 hp)
  · exact Or.inl ((hh p).2 hp)

theorem HeapAt_set {heap0 heap : Heap} {V : List TxPtr} (hh : HeapAt heap0 V heap) (p : TxPtr)
    (t0 : types.Transaction) (h0 : heap0[p]? = some t0) :
    HeapAt heap0 (V ++ [p]) (heap.set p (defaultSig t0)) := by
  have hlt : p < heap.length := by
    rcases HeapAt_read hh p with h | h
    · rw [h0] at h
      exact (List.getElem?_eq_some_iff.1 h).1
    · rw [h0] at h
      exact (List.getElem?_eq_some_iff.1 h).1
  intro q
  by_cases hq : p = q
  · subst hq
    constructor
    · intro _
      rw [List.getElem?_set_self hlt, h0]
      rfl
    · intro hn
      exact absurd (by simp) hn
  · rw [List.getElem?_set_ne hq]
    constructor
    · intro hm
      rcases List.mem_append.1 hm with hm | hm
      · exact (hh q).1 hm
      · simp at hm
        exact absurd hm.symm hq
    · intro hn
      exact (hh q).2 (fun hm => hn (List.mem_append_left _ hm))

end jsonrpc

namespace jsonrpc

theorem HeapAt_some {R : Type} {mk : types.Transaction → types.Block → Option (types.Transaction × R)}
    (hmk : MkLaw mk) {heap0 heap : Heap} {V : List TxPtr} (hh : HeapAt heap0 V heap)
    {p : TxPtr} {t : types.Transaction} (ht : heap[p]? = some t) :
    ∃ t0, heap0[p]? = some t0 ∧ defaultSig t = defaultSig t0 ∧ t.Hash = t0.Hash ∧
      ∀ b, (mk t b).map Prod.snd = (mk t0 b).map Prod.snd := by
  rcases HeapAt_read hh p with h | h
  · rw [ht] at h
    exact ⟨t, h.symm, rfl, rfl, fun _ => rfl⟩
  · rw [ht] at h
    cases h0 : heap0[p]? with
    | none => simp [h0] at h
    | some t0 =>
      simp only [h0, Option.map_some', Option.some.injEq] at h
      subst h
      exact ⟨t0, rfl, defaultSig_idem t0, defaultSig_Hash t0, fun b => hmk.2 t0 b⟩

theorem HeapAt_none {heap0 heap : Heap} {V : List TxPtr} (hh : HeapAt heap0 V heap)
    {p : TxPtr} (ht : heap[p]? = none) : heap0[p]? = none := by
  rcases HeapAt_read hh p with h | h
  · rw [← h]
    exact ht
  · rw [ht] at h
    cases h0 : heap0[p]? with
    | none => rfl
    | some t0 => simp [h0] at h

theorem contentNonces_spec {R : Type}
    (mk : types.Transaction → types.Block → Option (types.Transaction × R)) (hmk : MkLaw mk)
    (st : Store) (heap0 : Heap) (a : types.Address) :
    ∀ (l : List (Nat × TxPtr)) (V : List TxPtr) (heap : Heap)
      (out : GoMap types.Address (GoMap Nat R)) (inner : GoMap Nat R),
      HeapAt heap0 V heap → GoMap.find out a = some inner →
      (contentNonces mk st a l (heap, out) = none →
          innerOf (recordAt mk st heap0) l inner = none) ∧
        ∀ heap' out', contentNonces mk st a l (heap, out) = some (heap', out') →
          HeapAt heap0 (V ++ l.map Prod.snd) heap' ∧
            ∃ inner', innerOf (recordAt mk st heap0) l inner = some inner' ∧
              out' = GoMap.put out a inner' := by
  intro l
  induction l with
  | nil =>
    intro V heap out inner hh hf
    constructor
    · intro h
      simp [contentNonces] at h
    · intro heap' out' h
      simp only [contentNonces, Option.some.injEq, Prod.mk.injEq] at h
      obtain ⟨h1, h2⟩ := h
      subst h1 h2
      refine ⟨by simpa using hh, inner, by simp [innerOf, GoMap.build], ?_⟩
      exact (GoMap.put_of_find out a inner hf).symm
  | cons e rest ih =>
    obtain ⟨n, p⟩ := e
    intro V heap out inner hh hf
    cases ht : heap[p]? with
    | none =>
      have h0 := HeapAt_none hh ht
      simp [contentNonces, ht, innerOf, GoMap.build, recordAt, h0]
    | some t =>
      obtain ⟨t0, h0, hd, hH, hr⟩ := HeapAt_some hmk hh ht
      cases hm : mk t (contentBlock st t.Hash) with
      | none =>
        have hr' := hr (contentBlock st t.Hash)
        rw [hm, hH] at hr'
        simp only [Option.map_none'] at hr'
        simp [contentNonces, ht, hm, innerOf, GoMap.build, recordAt, h0, ← hr']
      | some tr =>
        obtain ⟨t', r⟩ := tr
        have ht' : t' = defaultSig t0 := by rw [hmk.1 t _ t' r hm, hd]
        subst ht'
        have hr' := hr (contentBlock st t.Hash)
        rw [hm, hH] at hr'
        simp only [Option.map_some'] at hr'
        have hrec : recordAt mk st heap0 p = some r := by
          simp [recordAt, h0, ← hr']
        have hh' := HeapAt_set hh p t0 h0
        have hf' : GoMap.find (GoMap.put out a (GoMap.put inner n r)) a
            = some (GoMap.put inner n r) := GoMap.find_put_self _ _ _
        have IH := ih (V ++ [p]) (heap.set p (defaultSig t0))
          (GoMap.put out a (GoMap.put inner n r)) (GoMap.put inner n r) hh' hf'
        have hstep : contentNonces mk st a ((n, p) :: rest) (heap, out)
            = contentNonces mk st a rest
                (heap.set p (defaultSig t0), GoMap.put out a (GoMap.put inner n r)) := by
          simp [contentNonces, ht, hm, GoMap.putInner, hf]
        rw [hstep]
        simp only [innerOf, GoMap.build, hrec, List.map_cons, id]
        constructor
        · exact IH.1
        · intro heap' out' h
          obtain ⟨h1, inner', h2, h3⟩ := IH.2 heap' out' h
          refine ⟨by simpa [List.append_assoc] using h1, inner', h2, ?_⟩
          rw [h3, GoMap.put_put]

end jsonrpc

namespace jsonrpc

theorem contentAddresses_spec {R : Type}
    (mk : types.Transaction → types.Block → Option (types.Transaction × R)) (hmk : MkLaw mk)
    (st : Store) (heap0 : Heap) :
    ∀ (l : List (types.Address × GoMap Nat TxPtr)) (V : List TxPtr) (heap : Heap)
      (out : GoMap types.Address (GoMap Nat R)),
      HeapAt heap0 V heap →
      (contentAddresses mk st l (heap, out) = none →
          outerOf (recordAt mk st heap0) l out = none) ∧
        ∀ heap' out', contentAddresses mk st l (heap, out) = some (heap', out') →
          HeapAt heap0 (V ++ ptrsOf l) heap' ∧
            outerOf (recordAt mk st heap0) l out = some out' := by
  intro l
  induction l with
  | nil =>
    intro V heap out hh
    constructor
    · intro h
      simp [contentAddresses] at h
    · intro heap' out' h
      simp only [contentAddresses, Option.some.injEq, Prod.mk.injEq] at h
      obtain ⟨h1, h2⟩ := h
      subst h1 h2
      exact ⟨by simpa [ptrsOf] using hh, by simp [outerOf, GoMap.build]⟩
  | cons e rest ih =>
    obtain ⟨a, ns⟩ := e
    intro V heap out hh
    have hf : GoMap.find (GoMap.put out a []) a = some ([] : GoMap Nat R) :=
      GoMap.find_put_self _ _ _
    have hN := contentNonces_spec mk hmk st heap0 a ns V heap (GoMap.put out a []) [] hh hf
    cases hc : contentNonces mk st a ns (heap, GoMap.put out a []) with
    | none =>
      have h1 := hN.1 hc
      simp [contentAddresses, hc, outerOf, GoMap.build, h1]
    | some s =>
      obtain ⟨heap1, out1⟩ := s
      obtain ⟨hh1, inner', hi, ho⟩ := hN.2 heap1 out1 hc
      rw [GoMap.put_put] at ho
      subst ho
      have IH := ih (V ++ ns.map Prod.snd) heap1 (GoMap.put out a inner') hh1
      have hstep : contentAddresses mk st ((a, ns) :: rest) (heap, out)
          = contentAddresses mk st rest (heap1, GoMap.put out a inner') := by
        simp [contentAddresses, hc]
      rw [hstep]
      simp only [outerOf, GoMap.build, hi, id]
      constructor
      · exact IH.1
      · intro heap' out' h
        obtain ⟨h1, h2⟩ := IH.2 heap' out' h
        exact ⟨by simpa [ptrsOf, List.append_assoc] using h1, h2⟩

end jsonrpc

namespace GoMap
variable {K V W K' : Type}

theorem build_find_prov [DecidableEq K'] (g : K → K') (f : V → Option W) :
    ∀ (l : List (K × V)) (m m' : GoMap K' W), build g f l m = some m' →
      ∀ k' w, find m' k' = some w → find m k' = some w ∨ ∃ e ∈ l, f e.2 = some w := by
  intro l
  induction l with
  | nil =>
    intro m m' h k' w hw
    simp only [build, Option.some.injEq] at h
    subst h
    exact Or.inl hw
  | cons e0 rest ih =>
    obtain ⟨k, v⟩ := e0
    intro m m' h k' w hw
    cases hf : f v with
    | none => simp [build, hf] at h
    | some w0 =>
      simp only [build, hf] at h
      rcases ih _ _ h k' w hw with h1 | ⟨e, he, h1⟩
      · by_cases hk : g k = k'
        · subst hk
          rw [find_put_self] at h1
          refine Or.inr ⟨(k, v), List.mem_cons_self _ _, ?_⟩
          rw [← h1]
          exact hf
        · rw [find_put_ne m w0 hk] at h1
          exact Or.inl h1
      · exact Or.inr ⟨e, List.mem_cons_of_mem _ he, h1⟩

theorem WF_nodup_id (l : GoMap K V) (h : WF l) : (l.map (fun e => id e.1)).Nodup := h

theorem find_nil [DecidableEq K] (k : K) : find ([] : GoMap K V) k = none := rfl

end GoMap

namespace jsonrpc

theorem mem_ptrsOf {txs : GoMap types.Address (GoMap Nat TxPtr)} {e : types.Address × GoMap Nat TxPtr}
    (he : e ∈ txs) {e' : Nat × TxPtr} (he' : e' ∈ e.2) : e'.2 ∈ ptrsOf txs := by
  simp only [ptrsOf, List.mem_flatMap, List.mem_map]
  exact ⟨e, he, e', he', rfl⟩

theorem mem_ptrsOf_of_find2 {txs : GoMap types.Address (GoMap Nat TxPtr)} {a : types.Address}
    {n : Nat} {p : TxPtr} (h : GoMap.find2 txs a n = some p) : p ∈ ptrsOf txs := by
  unfold GoMap.find2 at h
  cases ha : GoMap.find txs a with
  | none => simp [ha] at h
  | some ns =>
    simp only [ha] at h
    exact mem_ptrsOf (GoMap.mem_of_find txs a ns ha) (GoMap.mem_of_find ns n p h)

/-- Every record of a built nested map is the record of a pointer of the snapshot. -/
theorem outerOf_prov {R : Type} (rec : TxPtr → Option R)
    (txs : GoMap types.Address (GoMap Nat TxPtr)) (m' : GoMap types.Address (GoMap Nat R))
    (h : outerOf rec txs [] = some m') (a : types.Address) (n : Nat) (r : R)
    (hr : GoMap.find2 m' a n = some r) : ∃ p ∈ ptrsOf txs, rec p = some r := by
  unfold GoMap.find2 at hr
  cases ha : GoMap.find m' a with
  | none => simp [ha] at hr
  | some inner =>
    simp only [ha] at hr
    rcases GoMap.build_find_prov _ _ txs [] m' h a inner ha with h1 | ⟨e, he, h1⟩
    · simp [GoMap.find] at h1
    · rcases GoMap.build_find_prov _ _ e.2 [] inner h1 n r hr with h2 | ⟨e', he', h2⟩
      · simp [GoMap.find] at h2
      · exact ⟨e'.2, mem_ptrsOf he he', h2⟩

/-- The value of a built nested map at a pair of keys of the snapshot. -/
theorem outerOf_find2 {R : Type} (rec : TxPtr → Option R)
    (txs : GoMap types.Address (GoMap Nat TxPtr)) (hwf : GoMap.WF2 txs)
    (m' : GoMap types.Address (GoMap Nat R)) (h : outerOf rec txs [] = some m')
    (a : types.Address) (n : Nat) (p : TxPtr) (hp : GoMap.find2 txs a n = some p) :
    GoMap.find2 m' a n = rec p ∧ rec p ≠ none := by
  unfold GoMap.find2 at hp
  cases ha : GoMap.find txs a with
  | none => simp [ha] at hp
  | some ns =>
    simp only [ha] at hp
    have hmem := GoMap.mem_of_find txs a ns ha
    have h1 := GoMap.build_find_mem id _ txs [] m' hwf.1 h (a, ns) hmem
    simp only [id] at h1
    cases hi : innerOf rec ns [] with
    | none => exact absurd hi (GoMap.build_some_mem _ _ txs [] m' h (a, ns) hmem)
    | some inner =>
      rw [hi] at h1
      have hmem' := GoMap.mem_of_find ns n p hp
      have h2 := GoMap.build_find_mem id _ ns [] inner (hwf.2 (a, ns) hmem) hi (n, p) hmem'
      simp only [id] at h2
      refine ⟨?_, GoMap.build_some_mem _ _ ns [] inner hi (n, p) hmem'⟩
      simp only [GoMap.find2, h1]
      exact h2

/-- The keys of a built nested map are those of the snapshot, at both levels. -/
theorem outerOf_keys {R : Type} (rec : TxPtr → Option R)
    (txs : GoMap types.Address (GoMap Nat TxPtr)) (hwf : GoMap.WF2 txs)
    (m' : GoMap types.Address (GoMap Nat R)) (h : outerOf rec txs [] = some m') :
    (∀ a, GoMap.find txs a = none → GoMap.find m' a = none) ∧
      ∀ a ns, GoMap.find txs a = some ns → ∃ inner, GoMap.find m' a = some inner ∧
        (ns = [] → inner = []) ∧
        (∀ n, GoMap.find ns n = none → GoMap.find inner n = none) ∧
        ∀ n p, GoMap.find ns n = some p → GoMap.find inner n = rec p ∧ rec p ≠ none := by
  constructor
  · intro a ha
    rw [GoMap.build_find_not_mem id _ txs [] m' h a ((GoMap.find_eq_none_iff txs a).1 ha)]
    rfl
  · intro a ns ha
    have hmem := GoMap.mem_of_find txs a ns ha
    have h1 := GoMap.build_find_mem id _ txs [] m' hwf.1 h (a, ns) hmem
    simp only [id] at h1
    cases hi : innerOf rec ns [] with
    | none => exact absurd hi (GoMap.build_some_mem _ _ txs [] m' h (a, ns) hmem)
    | some inner =>
      rw [hi] at h1
      refine ⟨inner, h1, ?_, ?_, ?_⟩
      · intro hns
        subst hns
        exact GoMap.build_nil_of_nil _ _ inner hi
      · intro n hn
        rw [GoMap.build_find_not_mem id _ ns [] inner hi n ((GoMap.find_eq_none_iff ns n).1 hn)]
        rfl
      · intro n p hp
        have hmem' := GoMap.mem_of_find ns n p hp
        have h2 := GoMap.build_find_mem id _ ns [] inner (hwf.2 (a, ns) hmem) hi (n, p) hmem'
        exact ⟨h2, GoMap.build_some_mem _ _ ns [] inner hi (n, p) hmem'⟩

end jsonrpc

namespace jsonrpc

theorem defaultSig_GasPrice (t : types.Transaction) : (defaultSig t).GasPrice = t.GasPrice := by
  simp [defaultSig_eq]

theorem defaultSig_Value (t : types.Transaction) : (defaultSig t).Value = t.Value := by
  simp [defaultSig_eq]

theorem MkLaw_pending : MkLaw toGethPendingTransaction := by
  constructor
  · intro t b t' r h
    simp only [toGethPendingTransaction] at h
    split at h
    · simp only [Option.some.injEq, Prod.mk.injEq] at h
      exact h.1.symm
    · simp at h
  · intro t b
    simp only [toGethPendingTransaction, defaultSig_idem]

theorem MkLaw_queued : MkLaw queuedMk := by
  constructor
  · intro t b t' r h
    simp only [queuedMk, toGethQueuedTransaction] at h
    split at h
    · simp only [Option.some.injEq, Prod.mk.injEq] at h
      exact h.1.symm
    · simp at h
  · intro t b
    simp only [queuedMk, toGethQueuedTransaction, defaultSig_idem]

theorem pending_total (t : types.Transaction) (b : types.Block) (hg : t.GasPrice ≠ none)
    (hv : t.Value ≠ none) : toGethPendingTransaction t b ≠ none := by
  cases h1 : t.GasPrice with
  | none => exact absurd h1 hg
  | some g =>
    cases h2 : t.Value with
    | none => exact absurd h2 hv
    | some v => simp [toGethPendingTransaction, defaultSig_GasPrice, defaultSig_Value, h1, h2]

theorem queued_total (t : types.Transaction) (b : types.Block) (i : Int) (hg : t.GasPrice ≠ none)
    (hv : t.Value ≠ none) : toGethQueuedTransaction t b i ≠ none := by
  cases h1 : t.GasPrice with
  | none => exact absurd h1 hg
  | some g =>
    cases h2 : t.Value with
    | none => exact absurd h2 hv
    | some v => simp [toGethQueuedTransaction, defaultSig_GasPrice, defaultSig_Value, h1, h2]

/-- What a returning call of `Content` leaves: the heap with the signature defaults written
at the reachable pointers, and the two maps built from the records of the heap before the
call. -/
theorem Content_spec (st : Store) (heap0 : Heap) (o : Returned ContentResponse)
    (h : Content st heap0 = some o) :
    HeapAt heap0 (reachable st) o.heap ∧ o.err = none ∧
      ∃ P Q, o.resp.Pending = some P ∧ o.resp.Queued = some Q ∧
        outerOf (recordAt toGethPendingTransaction st heap0) st.GetTxs.1 [] = some P ∧
        outerOf (recordAt queuedMk st heap0) st.GetTxs.2 [] = some Q := by
  unfold Content at h
  cases h1 : contentAddresses toGethPendingTransaction st st.GetTxs.1 (heap0, []) with
  | none => simp [h1] at h
  | some s1 =>
    obtain ⟨heap1, P⟩ := s1
    obtain ⟨hh1, hP⟩ := (contentAddresses_spec toGethPendingTransaction MkLaw_pending st heap0
      st.GetTxs.1 [] heap0 [] (HeapAt_nil heap0)).2 heap1 P h1
    simp only [h1] at h
    cases h2 : contentAddresses queuedMk st st.GetTxs.2 (heap1, []) with
    | none =>
      have h2' : contentAddresses (fun t b => toGethQueuedTransaction t b 0) st st.GetTxs.2
          (heap1, []) = none := h2
      simp [h2'] at h
    | some s2 =>
      obtain ⟨heap2, Q⟩ := s2
      obtain ⟨hh2, hQ⟩ := (contentAddresses_spec queuedMk MkLaw_queued st heap0
        st.GetTxs.2 _ heap1 [] hh1).2 heap2 Q h2
      have h2' : contentAddresses (fun t b => toGethQueuedTransaction t b 0) st st.GetTxs.2
          (heap1, []) = some (heap2, Q) := h2
      simp only [h2', Option.some.injEq] at h
      subst h
      refine ⟨?_, rfl, P, Q, rfl, rfl, hP, hQ⟩
      simpa [reachable] using hh2

theorem recordAt_ne_none {R : Type}
    (mk : types.Transaction → types.Block → Option (types.Transaction × R))
    (hmk : ∀ t b, t.GasPrice ≠ none → t.Value ≠ none → mk t b ≠ none)
    (st : Store) (heap0 : Heap) (p : TxPtr) (hp : p < heap0.length)
    (hpr : ∀ t, heap0[p]? = some t → t.GasPrice ≠ none ∧ t.Value ≠ none) :
    recordAt mk st heap0 p ≠ none := by
  have hget : heap0[p]? = some heap0[p] := List.getElem?_eq_getElem hp
  have h1 := hpr _ hget
  have h2 := hmk heap0[p] (contentBlock st heap0[p].Hash) h1.1 h1.2
  simp only [recordAt, hget]
  cases hm : mk heap0[p] (contentBlock st heap0[p].Hash) with
  | none => exact absurd hm h2
  | some x => simp

theorem outerOf_ne_none {R : Type} (rec : TxPtr → Option R)
    (txs : GoMap types.Address (GoMap Nat TxPtr)) (m : GoMap types.Address (GoMap Nat R))
    (h : ∀ p ∈ ptrsOf txs, rec p ≠ none) : outerOf rec txs m ≠ none := by
  intro hn
  obtain ⟨e, he, h1⟩ := GoMap.build_eq_none _ _ txs m hn
  obtain ⟨e', he', h2⟩ := GoMap.build_eq_none _ _ e.2 [] h1
  exact h e'.2 (mem_ptrsOf he he') h2

/-- `Content` returns when no reachable pointer is nil and every reachable transaction has
a gas price and a value. -/
theorem Content_total (st : Store) (heap0 : Heap) (hp : AllPresent heap0 (reachable st))
    (hpr : AllPriced heap0 (reachable st)) : ∃ o, Content st heap0 = some o := by
  have hP : outerOf (recordAt toGethPendingTransaction st heap0) st.GetTxs.1 [] ≠ none := by
    apply outerOf_ne_none
    intro p hmem
    have hr : p ∈ reachable st := List.mem_append_left _ hmem
    exact recordAt_ne_none _ pending_total st heap0 p (hp p hr) (hpr p hr)
  have hQ : outerOf (recordAt queuedMk st heap0) st.GetTxs.2 [] ≠ none := by
    apply outerOf_ne_none
    intro p hmem
    have hr : p ∈ reachable st := List.mem_append_right _ hmem
    exact recordAt_ne_none _ (fun t b => queued_total t b 0) st heap0 p (hp p hr) (hpr p hr)
  cases h1 : contentAddresses toGethPendingTransaction st st.GetTxs.1 (heap0, []) with
  | none =>
    exact absurd ((contentAddresses_spec toGethPendingTransaction MkLaw_pending st heap0
      st.GetTxs.1 [] heap0 [] (HeapAt_nil heap0)).1 h1) hP
  | some s1 =>
    obtain ⟨heap1, P⟩ := s1
    obtain ⟨hh1, _⟩ := (contentAddresses_spec toGethPendingTransaction MkLaw_pending st heap0
      st.GetTxs.1 [] heap0 [] (HeapAt_nil heap0)).2 heap1 P h1
    cases h2 : contentAddresses queuedMk st st.GetTxs.2 (heap1, []) with
    | none =>
      exact absurd ((contentAddresses_spec queuedMk MkLaw_queued st heap0
        st.GetTxs.2 _ heap1 [] hh1).1 h2) hQ
    | some s2 =>
      obtain ⟨heap2, Q⟩ := s2
      have h2' : contentAddresses (fun t b => toGethQueuedTransaction t b 0) st st.GetTxs.2
          (heap1, []) = some (heap2, Q) := h2
      exact ⟨{ resp := { Pending := some P, Queued := some Q }, err := none, heap := heap2 },
        by simp [Content, h1, h2']⟩

end jsonrpc

namespace jsonrpc

theorem digitChar_value (d : Nat) (hd : d < 10) : (Nat.digitChar d).toNat - 48 = d := by
  interval_cases d <;> rfl

theorem decimal_foldl (ds : List Char) :
    ∀ a, ds.foldl (fun acc c => 10 * acc + (c.toNat - 48)) a
      = a * 10 ^ ds.length + ds.foldl (fun acc c => 10 * acc + (c.toNat - 48)) 0 := by
  induction ds with
  | nil =>
    intro a
    simp
  | cons c rest ih =>
    intro a
    simp only [List.foldl_cons, List.length_cons]
    rw [ih (10 * a + (c.toNat - 48)), ih (10 * 0 + (c.toNat - 48))]
    ring

theorem decimalValue_toDigitsCore :
    ∀ (fuel n : Nat) (ds : List Char), n < fuel →
      decimalValue (Nat.toDigitsCore 10 fuel n ds) = n * 10 ^ ds.length + decimalValue ds := by
  intro fuel
  induction fuel with
  | zero =>
    intro n ds h
    omega
  | succ fuel ih =>
    intro n ds h
    have hcons : decimalValue (Nat.digitChar (n % 10) :: ds)
        = (n % 10) * 10 ^ ds.length + decimalValue ds := by
      unfold decimalValue
      rw [List.foldl_cons, decimal_foldl, digitChar_value _ (Nat.mod_lt _ (by decide))]
      simp
    simp only [Nat.toDigitsCore]
    by_cases h0 : n / 10 = 0
    · simp only [h0, if_true]
      rw [hcons]
      have : n % 10 = n := by omega
      rw [this]
    · simp only [h0, if_false]
      rw [ih (n / 10) _ (by omega), hcons, List.length_cons]
      have hn : n = 10 * (n / 10) + n % 10 := (Nat.div_add_mod n 10).symm
      generalize hq : n / 10 = q at hn
      generalize hr : n % 10 = r at hn
      subst hn
      ring

theorem decimalValue_repr (n : Nat) : decimalValue (Nat.repr n).data = n := by
  have h := decimalValue_toDigitsCore (n + 1) n [] (Nat.lt_succ_self n)
  simpa [Nat.repr, Nat.toDigits, List.asString, decimalValue] using h

theorem fmtUint_injective : Function.Injective fmtUint := by
  intro a b h
  have h1 : decimalValue (Nat.repr a).data = decimalValue (Nat.repr b).data := by
    have h2 : Nat.repr a = Nat.repr b := h
    rw [h2]
  rwa [decimalValue_repr, decimalValue_repr] at h1

end jsonrpc

namespace jsonrpc

theorem inspectNonces_eq (heap : Heap) (key : String) :
    ∀ (l : List (Nat × TxPtr)) (out : GoMap String (GoMap String String))
      (inner : GoMap String String), GoMap.find out key = some inner →
      inspectNonces heap key l out
        = (GoMap.build fmtUint (msgAt heap) l inner).map (fun x => GoMap.put out key x) := by
  intro l
  induction l with
  | nil =>
    intro out inner hf
    simp [inspectNonces, GoMap.build, GoMap.put_of_find out key inner hf]
  | cons e rest ih =>
    obtain ⟨n, p⟩ := e
    intro out inner hf
    cases ht : heap[p]? with
    | none => simp [inspectNonces, GoMap.build, msgAt, ht]
    | some t =>
      have hf' : GoMap.find (GoMap.put out key (GoMap.put inner (fmtUint n) (inspectMsg t))) key
          = some (GoMap.put inner (fmtUint n) (inspectMsg t)) := GoMap.find_put_self _ _ _
      simp only [inspectNonces, ht, GoMap.putInner, hf, GoMap.build, msgAt, Option.map_some']
      rw [ih _ _ hf']
      simp only [GoMap.put_put, msgAt]

theorem inspectAddresses_eq (addrString : types.Address → String) (heap : Heap) :
    ∀ (l : List (types.Address × GoMap Nat TxPtr)) (out : GoMap String (GoMap String String)),
      inspectAddresses addrString heap l out
        = GoMap.build addrString (fun ns => GoMap.build fmtUint (msgAt heap) ns []) l out := by
  intro l
  induction l with
  | nil =>
    intro out
    simp [inspectAddresses, GoMap.build]
  | cons e rest ih =>
    obtain ⟨a, ns⟩ := e
    intro out
    have hf : GoMap.find (GoMap.put out (addrString a) []) (addrString a)
        = some ([] : GoMap String String) := GoMap.find_put_self _ _ _
    simp only [inspectAddresses, inspectNonces_eq heap _ ns _ [] hf, GoMap.build]
    cases hb : GoMap.build fmtUint (msgAt heap) ns [] with
    | none => simp
    | some inner => simp [GoMap.put_put, ih]

/-- What a returning call of `Inspect` holds: a nil error and the two maps built from the
messages of the transactions. -/
theorem Inspect_spec (addrString : types.Address → String) (st : Store) (heap : Heap)
    (r : InspectResponse × Option String) (h : Inspect addrString st heap = some r) :
    r.2 = none ∧ ∃ P Q, r.1.Pending = some P ∧ r.1.Queued = some Q ∧
      GoMap.build addrString (fun ns => GoMap.build fmtUint (msgAt heap) ns []) st.GetTxs.1 []
        = some P ∧
      GoMap.build addrString (fun ns => GoMap.build fmtUint (msgAt heap) ns []) st.GetTxs.2 []
        = some Q := by
  unfold Inspect at h
  rw [inspectAddresses_eq, inspectAddresses_eq] at h
  cases h1 : GoMap.build addrString (fun ns => GoMap.build fmtUint (msgAt heap) ns [])
      st.GetTxs.1 [] with
  | none => simp [h1] at h
  | some P =>
    cases h2 : GoMap.build addrString (fun ns => GoMap.build fmtUint (msgAt heap) ns [])
        st.GetTxs.2 [] with
    | none => simp [h1, h2] at h
    | some Q =>
      simp only [h1, h2, Option.some.injEq] at h
      subst h
      exact ⟨rfl, P, Q, rfl, rfl, rfl, rfl⟩

theorem inspect_build_ne_none (addrString : types.Address → String) (heap : Heap)
    (txs : GoMap types.Address (GoMap Nat TxPtr)) (hp : AllPresent heap (ptrsOf txs)) :
    GoMap.build addrString (fun ns => GoMap.build fmtUint (msgAt heap) ns []) txs [] ≠ none := by
  intro hn
  obtain ⟨e, he, h1⟩ := GoMap.build_eq_none _ _ txs [] hn
  obtain ⟨e', he', h2⟩ := GoMap.build_eq_none _ _ e.2 [] h1
  have hlt := hp e'.2 (mem_ptrsOf he he')
  simp [msgAt, List.getElem?_eq_getElem hlt] at h2

/-- `Inspect` returns when no reachable pointer is nil. -/
theorem Inspect_total (addrString : types.Address → String) (st : Store) (heap : Heap)
    (hp : AllPresent heap (reachable st)) : ∃ r, Inspect addrString st heap = some r := by
  have h1 := inspect_build_ne_none addrString heap st.GetTxs.1
    (fun p hm => hp p (List.mem_append_left _ hm))
  have h2 := inspect_build_ne_none addrString heap st.GetTxs.2
    (fun p hm => hp p (List.mem_append_right _ hm))
  unfold Inspect
  rw [inspectAddresses_eq, inspectAddresses_eq]
  cases hb1 : GoMap.build addrString (fun ns => GoMap.build fmtUint (msgAt heap) ns [])
      st.GetTxs.1 [] with
  | none => exact absurd hb1 h1
  | some P =>
    cases hb2 : GoMap.build addrString (fun ns => GoMap.build fmtUint (msgAt heap) ns [])
        st.GetTxs.2 [] with
    | none => exact absurd hb2 h2
    | some Q => exact ⟨({ Pending := some P, Queued := some Q }, none), rfl⟩

/-- The message of `Inspect` at a pair of keys of the snapshot. -/
theorem inspect_build_find2 (addrString : types.Address → String)
    (hinj : Function.Injective addrString) (heap : Heap)
    (txs : GoMap types.Address (GoMap Nat TxPtr)) (hwf : GoMap.WF2 txs)
    (m' : GoMap String (GoMap String String))
    (h : GoMap.build addrString (fun ns => GoMap.build fmtUint (msgAt heap) ns []) txs []
      = some m')
    (a : types.Address) (n : Nat) (p : TxPtr) (hp : GoMap.find2 txs a n = some p) :
    GoMap.find2 m' (addrString a) (fmtUint n) = msgAt heap p := by
  unfold GoMap.find2 at hp
  cases ha : GoMap.find txs a with
  | none => simp [ha] at hp
  | some ns =>
    simp only [ha] at hp
    have hmem := GoMap.mem_of_find txs a ns ha
    have hnd : (txs.map (fun e => addrString e.1)).Nodup := by
      have := List.Nodup.map hinj hwf.1
      simpa [List.map_map] using this
    have h1 := GoMap.build_find_mem addrString _ txs [] m' hnd h (a, ns) hmem
    cases hi : GoMap.build fmtUint (msgAt heap) ns [] with
    | none => exact absurd hi (GoMap.build_some_mem _ _ txs [] m' h (a, ns) hmem)
    | some inner =>
      simp only [hi] at h1
      have hmem' := GoMap.mem_of_find ns n p hp
      have hnd' : (ns.map (fun e => fmtUint e.1)).Nodup := by
        have := List.Nodup.map fmtUint_injective (hwf.2 (a, ns) hmem)
        simpa [List.map_map] using this
      have h2 := GoMap.build_find_mem fmtUint _ ns [] inner hnd' hi (n, p) hmem'
      simp only [GoMap.find2, h1]
      exact h2

end jsonrpc

namespace jsonrpc

theorem recordAt_some {R : Type}
    {mk : types.Transaction → types.Block → Option (types.Transaction × R)}
    {st : Store} {heap : Heap} {p : TxPtr} {r : R} (h : recordAt mk st heap p = some r) :
    ∃ t t', heap[p]? = some t ∧ mk t (contentBlock st t.Hash) = some (t', r) := by
  unfold recordAt at h
  cases ht : heap[p]? with
  | none => simp [ht] at h
  | some t =>
    simp only [ht] at h
    cases hm : mk t (contentBlock st t.Hash) with
    | none => simp [hm] at h
    | some x =>
      obtain ⟨t', r'⟩ := x
      simp only [hm, Option.map_some', Option.some.injEq] at h
      subst h
      exact ⟨t, t', rfl, hm⟩

theorem recordAt_ne_none_some {R : Type}
    {mk : types.Transaction → types.Block → Option (types.Transaction × R)}
    {st : Store} {heap : Heap} {p : TxPtr} (h : recordAt mk st heap p ≠ none) :
    ∃ r, recordAt mk st heap p = some r := by
  cases hr : recordAt mk st heap p with
  | none => exact absurd hr h
  | some r => exact ⟨r, rfl⟩

/-- The maps `Content` builds hold the records of the snapshot. -/
theorem outerOf_RecordsOf {R : Type}
    (mk : types.Transaction → types.Block → Option (types.Transaction × R))
    (st : Store) (heap : Heap) (txs : GoMap types.Address (GoMap Nat TxPtr))
    (hwf : GoMap.WF2 txs) (m' : GoMap types.Address (GoMap Nat R))
    (h : outerOf (recordAt mk st heap) txs [] = some m') : RecordsOf mk st heap txs m' := by
  obtain ⟨h1, h2⟩ := outerOf_keys _ txs hwf m' h
  refine ⟨h1, ?_⟩
  intro a ns ha
  obtain ⟨inner, hi, h3, h4, h5⟩ := h2 a ns ha
  refine ⟨inner, hi, h3, h4, ?_⟩
  intro n p hp
  obtain ⟨h6, h7⟩ := h5 n p hp
  obtain ⟨r, hr⟩ := recordAt_ne_none_some h7
  obtain ⟨t, t', ht, hm⟩ := recordAt_some hr
  exact ⟨t, t', r, ht, hm, by rw [h6, hr]⟩

/-- The reads of a built nested map in terms of the reads of the snapshot. -/
theorem outerOf_find2_bind {R : Type} (rec : TxPtr → Option R)
    (txs : GoMap types.Address (GoMap Nat TxPtr)) (hwf : GoMap.WF2 txs)
    (m' : GoMap types.Address (GoMap Nat R)) (h : outerOf rec txs [] = some m') :
    (∀ a, (GoMap.find m' a).isSome = (GoMap.find txs a).isSome) ∧
      ∀ a n, GoMap.find2 m' a n = (GoMap.find2 txs a n).bind rec := by
  obtain ⟨h1, h2⟩ := outerOf_keys _ txs hwf m' h
  constructor
  · intro a
    cases ha : GoMap.find txs a with
    | none => simp [h1 a ha]
    | some ns =>
      obtain ⟨inner, hi, _⟩ := h2 a ns ha
      simp [hi]
  · intro a n
    cases ha : GoMap.find txs a with
    | none => simp [GoMap.find2, h1 a ha, ha]
    | some ns =>
      obtain ⟨inner, hi, _, h4, h5⟩ := h2 a ns ha
      cases hn : GoMap.find ns n with
      | none => simp [GoMap.find2, hi, ha, hn, h4 n hn]
      | some p => simp [GoMap.find2, hi, ha, hn, (h5 n p hn).1]

theorem Content_eq_none (st : Store) (heap0 : Heap) (h : Content st heap0 = none) :
    outerOf (recordAt toGethPendingTransaction st heap0) st.GetTxs.1 [] = none ∨
      outerOf (recordAt queuedMk st heap0) st.GetTxs.2 [] = none := by
  cases h1 : contentAddresses toGethPendingTransaction st st.GetTxs.1 (heap0, []) with
  | none =>
    exact Or.inl ((contentAddresses_spec toGethPendingTransaction MkLaw_pending st heap0
      st.GetTxs.1 [] heap0 [] (HeapAt_nil heap0)).1 h1)
  | some s1 =>
    obtain ⟨heap1, P⟩ := s1
    obtain ⟨hh1, _⟩ := (contentAddresses_spec toGethPendingTransaction MkLaw_pending st heap0
      st.GetTxs.1 [] heap0 [] (HeapAt_nil heap0)).2 heap1 P h1
    cases h2 : contentAddresses queuedMk st st.GetTxs.2 (heap1, []) with
    | none =>
      exact Or.inr ((contentAddresses_spec queuedMk MkLaw_queued st heap0
        st.GetTxs.2 _ heap1 [] hh1).1 h2)
    | some s2 =>
      obtain ⟨heap2, Q⟩ := s2
      have h2' : contentAddresses (fun t b => toGethQueuedTransaction t b 0) st st.GetTxs.2
          (heap1, []) = some (heap2, Q) := h2
      simp [Content, h1, h2'] at h

theorem contentBlock_congr (st st' : Store) (hrl : st'.ReadTxLookup = st.ReadTxLookup)
    (hgb : st'.GetBlockByHash = st.GetBlockByHash) (x : types.Hash) :
    contentBlock st' x = contentBlock st x := by
  simp [contentBlock, hrl, hgb]

/-- The record at a pointer is the same after the signature defaults are written. -/
theorem recordAt_congr {R : Type}
    (mk : types.Transaction → types.Block → Option (types.Transaction × R)) (hmk : MkLaw mk)
    (st st' : Store) (hrl : st'.ReadTxLookup = st.ReadTxLookup)
    (hgb : st'.GetBlockByHash = st.GetBlockByHash) (heap0 heap : Heap) (V : List TxPtr)
    (hh : HeapAt heap0 V heap) (p : TxPtr) :
    recordAt mk st' heap p = recordAt mk st heap0 p := by
  cases ht : heap[p]? with
  | none => simp [recordAt, ht, HeapAt_none hh ht]
  | some t =>
    obtain ⟨t0, h0, _, hH, hr⟩ := HeapAt_some hmk hh ht
    simp only [recordAt, ht, h0, contentBlock_congr st st' hrl hgb, hH]
    exact hr _

theorem outerOf_same_ne_none {R : Type} (rec : TxPtr → Option R)
    (txs txs' : GoMap types.Address (GoMap Nat TxPtr)) (hwf : GoMap.WF2 txs)
    (hwf' : GoMap.WF2 txs') (hs : SameMap2 txs txs') (m : GoMap types.Address (GoMap Nat R))
    (h : outerOf rec txs [] = some m) : outerOf rec txs' [] ≠ none := by
  intro hn
  obtain ⟨e, he, h1⟩ := GoMap.build_eq_none _ _ txs' [] hn
  obtain ⟨e', he', h2⟩ := GoMap.build_eq_none _ _ e.2 [] h1
  have hf1 : GoMap.find txs' e.1 = some e.2 := GoMap.find_of_mem txs' hwf'.1 e.1 e.2 he
  have hf2 : GoMap.find e.2 e'.1 = some e'.2 :=
    GoMap.find_of_mem e.2 (hwf'.2 e he) e'.1 e'.2 he'
  have hf : GoMap.find2 txs' e.1 e'.1 = some e'.2 := by simp [GoMap.find2, hf1, hf2]
  rw [← hs.2] at hf
  exact (outerOf_find2 rec txs hwf m h e.1 e'.1 e'.2 hf).2 h2

theorem outerOf_same {R : Type} (rec : TxPtr → Option R)
    (txs txs' : GoMap types.Address (GoMap Nat TxPtr)) (hwf : GoMap.WF2 txs)
    (hwf' : GoMap.WF2 txs') (hs : SameMap2 txs txs') (m m' : GoMap types.Address (GoMap Nat R))
    (h : outerOf rec txs [] = some m) (h' : outerOf rec txs' [] = some m') : SameMap2 m m' := by
  obtain ⟨h1, h2⟩ := outerOf_find2_bind rec txs hwf m h
  obtain ⟨h1', h2'⟩ := outerOf_find2_bind rec txs' hwf' m' h'
  constructor
  · intro a
    rw [h1, h1', hs.1]
  · intro a n
    rw [h2, h2', hs.2]

end jsonrpc


/-! ## The claims -/

namespace jsonrpc

theorem pending_fields {t t' : types.Transaction} {b : types.Block} {r : gethPendingTransaction}
    (h : toGethPendingTransaction t b = some (t', r)) :
    t' = defaultSig t ∧ r.R = some (t.R.getD [0]) ∧ r.S = some (t.S.getD [0]) ∧
      r.BlockHash = some b.Hash ∧ r.BlockNumber = none ∧ r.TxIndex = none := by
  simp only [toGethPendingTransaction] at h
  split at h
  · simp only [Option.some.injEq, Prod.mk.injEq] at h
    obtain ⟨h1, h2⟩ := h
    subst h1 h2
    simp [defaultSig_eq]
  · simp at h

theorem queued_fields {t t' : types.Transaction} {b : types.Block} {i : Int}
    {r : gethQueuedTransaction} (h : toGethQueuedTransaction t b i = some (t', r)) :
    t' = defaultSig t ∧ r.R = some (t.R.getD [0]) ∧ r.S = some (t.S.getD [0]) ∧
      r.BlockHash = b.Hash ∧ r.BlockNumber = b.Number ∧ r.TxIndex = argUint64OfInt i := by
  simp only [toGethQueuedTransaction] at h
  split at h
  · simp only [Option.some.injEq, Prod.mk.injEq] at h
    obtain ⟨h1, h2⟩ := h
    subst h1 h2
    simp [defaultSig_eq]
  · simp at h

/-- C1, as stated, fails: on the pool `exStore` the pending record of address 1, nonce 0
has `blockHash` set to the hash of the resolved block, not null. -/
theorem C1_counterexample :
    ∃ o P r, Content exStore exHeap = some o ∧ o.resp.Pending = some P ∧
      GoMap.find2 P ⟨1⟩ 0 = some r ∧ r.BlockHash = some ⟨9⟩ ∧ r.BlockHash ≠ none :=
  ⟨exOut, [(⟨1⟩, [(0, exPendingRecord ⟨9⟩)])], exPendingRecord ⟨9⟩, by decide, rfl, by decide,
    rfl, by decide⟩

theorem pending_hash_field {t t' : types.Transaction} {b : types.Block}
    {r : gethPendingTransaction} (h : toGethPendingTransaction t b = some (t', r)) :
    r.Hash = t.Hash := by
  simp only [toGethPendingTransaction] at h
  split at h
  · simp only [Option.some.injEq, Prod.mk.injEq] at h
    obtain ⟨_, h2⟩ := h
    subst h2
    simp [defaultSig_eq]
  · simp at h

/-- C1, amended: for every pool snapshot and store behaviour, every record in the pending
part of the result of `Content` has `blockNumber` and `transactionIndex` null, while its
`blockHash` is not null: the record is that of a pending transaction of the pool (it
carries its hash), and its `blockHash` holds the hash of the block resolved for that
transaction. -/
theorem C1_pending_block_context (st : Store) (heap : Heap) (o : Returned ContentResponse)
    (h : Content st heap = some o) :
    ∃ P, o.resp.Pending = some P ∧
      ∀ a n r, GoMap.find2 P a n = some r →
        r.BlockNumber = none ∧ r.TxIndex = none ∧ r.BlockHash ≠ none ∧
          ∃ p t, p ∈ ptrsOf st.GetTxs.1 ∧ heap[p]? = some t ∧ r.Hash = t.Hash ∧
            r.BlockHash = some (contentBlock st t.Hash).Hash := by
  obtain ⟨_, _, P, Q, hP, _, hoP, _⟩ := Content_spec st heap o h
  refine ⟨P, hP, ?_⟩
  intro a n r hr
  obtain ⟨p, hp, hrec⟩ := outerOf_prov _ _ P hoP a n r hr
  obtain ⟨t, t', ht, hm⟩ := recordAt_some hrec
  obtain ⟨_, _, _, h1, h2, h3⟩ := pending_fields hm
  exact ⟨h2, h3, by simp [h1], p, t, hp, ht, pending_hash_field hm, h1⟩

/-- C1: the theorem at a concrete pool. -/
theorem C1_pending_block_context_witness :
    ∃ P, exOut.resp.Pending = some P ∧
      ∀ a n r, GoMap.find2 P a n = some r →
        r.BlockNumber = none ∧ r.TxIndex = none ∧ r.BlockHash ≠ none ∧
          ∃ p t, p ∈ ptrsOf exStore.GetTxs.1 ∧ exHeap[p]? = some t ∧ r.Hash = t.Hash ∧
            r.BlockHash = some (contentBlock exStore t.Hash).Hash :=
  C1_pending_block_context exStore exHeap exOut (by decide)

/-- C2, as stated, fails: the transaction `exTx0` has a zero-length, non-nil `s`, and the
record built from it has `S` zero-length as well, not the single byte 0. -/
theorem C2_counterexample :
    exTx0.S = some [] ∧
      (toGethPendingTransaction exTx0 exBlock).map (fun x => x.2.S) = some (some []) ∧
      (toGethQueuedTransaction exTx0 exBlock 0).map (fun x => x.2.S) = some (some []) := by
  decide

/-- C2, amended: for every transaction `t` with a gas price and a value, both constructors
return a record whose `R` is the single byte 0 when `t.R` is nil and is `t.R` unchanged
otherwise (a zero-length non-nil `r` stays zero-length); the same holds for `S`. -/
theorem C2_signature_defaults (t : types.Transaction) (b : types.Block) (i : Int)
    (hg : t.GasPrice ≠ none) (hv : t.Value ≠ none) :
    (∃ t' r, toGethPendingTransaction t b = some (t', r) ∧
        (t.R = none → r.R = some [0]) ∧ (t.R ≠ none → r.R = t.R) ∧
        (t.S = none → r.S = some [0]) ∧ (t.S ≠ none → r.S = t.S)) ∧
      ∃ t' r, toGethQueuedTransaction t b i = some (t', r) ∧
        (t.R = none → r.R = some [0]) ∧ (t.R ≠ none → r.R = t.R) ∧
        (t.S = none → r.S = some [0]) ∧ (t.S ≠ none → r.S = t.S) := by
  have key : ∀ x y : Option (List Nat), y = some (x.getD [0]) →
      (x = none → y = some [0]) ∧ (x ≠ none → y = x) := by
    intro x y hy
    cases x with
    | none => simp [hy]
    | some l => simp [hy]
  constructor
  · cases hm : toGethPendingTransaction t b with
    | none => exact absurd hm (pending_total t b hg hv)
    | some x =>
      obtain ⟨t', r⟩ := x
      obtain ⟨_, h1, h2, _⟩ := pending_fields hm
      exact ⟨t', r, rfl, (key _ _ h1).1, (key _ _ h1).2, (key _ _ h2).1, (key _ _ h2).2⟩
  · cases hm : toGethQueuedTransaction t b i with
    | none => exact absurd hm (queued_total t b i hg hv)
    | some x =>
      obtain ⟨t', r⟩ := x
      obtain ⟨_, h1, h2, _⟩ := queued_fields hm
      exact ⟨t', r, rfl, (key _ _ h1).1, (key _ _ h1).2, (key _ _ h2).1, (key _ _ h2).2⟩

/-- C2: the theorem at a concrete pool. -/
theorem C2_signature_defaults_witness :
    (∃ t' r, toGethPendingTransaction exTx0 exBlock = some (t', r) ∧
        (exTx0.R = none → r.R = some [0]) ∧ (exTx0.R ≠ none → r.R = exTx0.R) ∧
        (exTx0.S = none → r.S = some [0]) ∧ (exTx0.S ≠ none → r.S = exTx0.S)) ∧
      ∃ t' r, toGethQueuedTransaction exTx0 exBlock 0 = some (t', r) ∧
        (exTx0.R = none → r.R = some [0]) ∧ (exTx0.R ≠ none → r.R = exTx0.R) ∧
        (exTx0.S = none → r.S = some [0]) ∧ (exTx0.S ≠ none → r.S = exTx0.S) :=
  C2_signature_defaults exTx0 exBlock 0 (by decide) (by decide)

/-- C3, as stated, fails: on the pool `exStore` the pending transaction at pointer 0 has a
nil `r` before the call of `Content` and the single byte 0 as `r` after it. -/
theorem C3_counterexample :
    ∃ o, Content exStore exHeap = some o ∧ 0 ∈ reachable exStore ∧
      exHeap[0]? = some exTx0 ∧ exTx0.R = none ∧
      o.heap[0]? = some { exTx0 with R := some [0] } ∧ o.heap[0]? ≠ exHeap[0]? :=
  ⟨exOut, by decide, by decide, by decide, by decide, by decide, by decide⟩

/-- C3, amended: `Content` changes no pooled transaction except in `r` and `s`: after it
returns, every transaction reachable from `GetTxs()` is the one before the call with a nil
`r` replaced by the single byte 0 and a nil `s` replaced by the single byte 0, all other
fields (and a non-nil `r` or `s`) as before; transactions not reachable are unchanged. -/
theorem C3_content_heap_effect (st : Store) (heap : Heap) (o : Returned ContentResponse)
    (h : Content st heap = some o) :
    (∀ p ∈ reachable st, o.heap[p]? = (heap[p]?).map
        (fun t => { t with R := some (t.R.getD [0]), S := some (t.S.getD [0]) })) ∧
      ∀ p, p ∉ reachable st → o.heap[p]? = heap[p]? := by
  obtain ⟨hh, _⟩ := Content_spec st heap o h
  constructor
  · intro p hp
    rw [(hh p).1 hp]
    congr 1
    funext t
    exact defaultSig_eq t
  · intro p hp
    exact (hh p).2 hp

/-- C3: the theorem at a concrete pool. -/
theorem C3_content_heap_effect_witness :
    (∀ p ∈ reachable exStore, exOut.heap[p]? = (exHeap[p]?).map
        (fun t => { t with R := some (t.R.getD [0]), S := some (t.S.getD [0]) })) ∧
      ∀ p, p ∉ reachable exStore → exOut.heap[p]? = exHeap[p]? :=
  C3_content_heap_effect exStore exHeap exOut (by decide)

theorem statusCount_eq (l : List (types.Address × GoMap Nat TxPtr)) :
    ∀ count, statusCount l count = count + (l.map (fun e => e.2.length)).sum := by
  induction l with
  | nil =>
    intro count
    simp [statusCount]
  | cons e rest ih =>
    obtain ⟨a, t⟩ := e
    intro count
    simp [statusCount, ih, Nat.add_assoc]

/-- C4: for every pool snapshot, `Status().pending` is the sum over the addresses of the
pending set of the number of nonces recorded for the address, `Status().queued` the same
sum over the queued set, and each is 0 when its set is empty. -/
theorem C4_status_counts (st : Store) :
    (Status st).1.Pending = (st.GetTxs.1.map (fun e => e.2.length)).sum ∧
      (Status st).1.Queued = (st.GetTxs.2.map (fun e => e.2.length)).sum ∧
      (∀ queued rl gb, (Status ⟨([], queued), rl, gb⟩).1.Pending = 0) ∧
      ∀ pending rl gb, (Status ⟨(pending, []), rl, gb⟩).1.Queued = 0 := by
  refine ⟨?_, ?_, ?_, ?_⟩
  · simp [Status, statusCount_eq]
  · simp [Status, statusCount_eq]
  · intro queued rl gb
    simp [Status, statusCount]
  · intro pending rl gb
    simp [Status, statusCount]

/-- The queued record `Content` returns for a queued transaction of the snapshot. -/
theorem queued_record_at (st : Store) (heap : Heap) (o : Returned ContentResponse)
    (h : Content st heap = some o) (hwf : GoMap.WF2 st.GetTxs.2)
    (a : types.Address) (n : Nat) (p : TxPtr) (t : types.Transaction)
    (hq : GoMap.find2 st.GetTxs.2 a n = some p) (ht : heap[p]? = some t) :
    ∃ Q r t', o.resp.Queued = some Q ∧ GoMap.find2 Q a n = some r ∧
      toGethQueuedTransaction t (contentBlock st t.Hash) 0 = some (t', r) := by
  obtain ⟨_, _, P, Q, _, hQ, _, hoQ⟩ := Content_spec st heap o h
  obtain ⟨h1, h2⟩ := outerOf_find2 _ _ hwf Q hoQ a n p hq
  obtain ⟨r, hr⟩ := recordAt_ne_none_some h2
  obtain ⟨t0, t', ht0, hm⟩ := recordAt_some hr
  rw [ht] at ht0
  simp only [Option.some.injEq] at ht0
  subst ht0
  exact ⟨Q, r, t', hQ, by rw [h1, hr], hm⟩

/-- C5, as stated, fails: on the pool `exStore` the hash of the queued transaction is not
found by `ReadTxLookup`, `GetBlockByHash` returns block 5 for the hash used, and the queued
record has `blockNumber` 5. -/
theorem C5_counterexample :
    ∃ o Q r, Content exStore exHeap = some o ∧ exHeap[1]? = some exTx1 ∧
      (exStore.ReadTxLookup exTx1.Hash).2 = false ∧ o.resp.Queued = some Q ∧
      GoMap.find2 Q ⟨2⟩ 5 = some r ∧ r.BlockNumber = 5 ∧ r.BlockNumber ≠ 0 :=
  ⟨exOut, [(⟨2⟩, [(5, exQueuedRecord ⟨9⟩ 5)])], exQueuedRecord ⟨9⟩ 5, by decide, by decide,
    by decide, rfl, by decide, rfl, by decide⟩

/-- C5, amended: for every queued transaction whose hash `ReadTxLookup` reports as not
found, the queued record produced by `Content` has `transactionIndex` 0; its `blockNumber`
is 0 when `GetBlockByHash` returns no block for the hash used, and the number of the
returned block when it returns one. -/
theorem C5_queued_not_found (st : Store) (heap : Heap) (o : Returned ContentResponse)
    (h : Content st heap = some o) (hwf : GoMap.WF2 st.GetTxs.2)
    (a : types.Address) (n : Nat) (p : TxPtr) (t : types.Transaction)
    (hq : GoMap.find2 st.GetTxs.2 a n = some p) (ht : heap[p]? = some t)
    (_hnf : (st.ReadTxLookup t.Hash).2 = false) :
    ∃ Q r, o.resp.Queued = some Q ∧ GoMap.find2 Q a n = some r ∧ r.TxIndex = 0 ∧
      ((st.GetBlockByHash (st.ReadTxLookup t.Hash).1 false).1 = none → r.BlockNumber = 0) ∧
      ∀ block, (st.GetBlockByHash (st.ReadTxLookup t.Hash).1 false).1 = some block →
        r.BlockNumber = block.Number := by
  obtain ⟨Q, r, t', hQ, hr, hm⟩ := queued_record_at st heap o h hwf a n p t hq ht
  obtain ⟨_, _, _, _, h5, h6⟩ := queued_fields hm
  refine ⟨Q, r, hQ, hr, ?_, ?_, ?_⟩
  · rw [h6]
    rfl
  · intro hb
    rw [h5]
    simp [contentBlock, hb, types.Block.Number]
  · intro block hb
    rw [h5]
    simp [contentBlock, hb]

/-- C5: the theorem at a concrete pool. -/
theorem C5_queued_not_found_witness :
    ∃ Q r, exOutNoBlock.resp.Queued = some Q ∧ GoMap.find2 Q ⟨2⟩ 5 = some r ∧ r.TxIndex = 0 ∧
      ((exStoreNoBlock.GetBlockByHash (exStoreNoBlock.ReadTxLookup exTx1.Hash).1 false).1 = none →
        r.BlockNumber = 0) ∧
      ∀ block,
        (exStoreNoBlock.GetBlockByHash (exStoreNoBlock.ReadTxLookup exTx1.Hash).1 false).1
          = some block → r.BlockNumber = block.Number :=
  C5_queued_not_found exStoreNoBlock exHeap exOutNoBlock (by decide)
    (by unfold GoMap.WF2 GoMap.WF; decide) ⟨2⟩ 5 1 exTx1 (by decide) (by decide) (by decide)

/-- C6: for every queued transaction, the block hash and block number of its record in
`Content` are those of the spec's resolver: of the block `GetBlockByHash` yields for the
hash returned by `ReadTxLookup`, or else the looked-up hash and 0. -/
theorem C6_queued_block_context (st : Store) (heap : Heap) (o : Returned ContentResponse)
    (h : Content st heap = some o) (hwf : GoMap.WF2 st.GetTxs.2)
    (a : types.Address) (n : Nat) (p : TxPtr) (t : types.Transaction)
    (hq : GoMap.find2 st.GetTxs.2 a n = some p) (ht : heap[p]? = some t) :
    ∃ Q r, o.resp.Queued = some Q ∧ GoMap.find2 Q a n = some r ∧
      (r.BlockHash, r.BlockNumber) = specResolve st t.Hash := by
  obtain ⟨Q, r, t', hQ, hr, hm⟩ := queued_record_at st heap o h hwf a n p t hq ht
  obtain ⟨_, _, _, h4, h5, _⟩ := queued_fields hm
  refine ⟨Q, r, hQ, hr, ?_⟩
  rw [h4, h5]
  unfold contentBlock specResolve
  cases hb : (st.GetBlockByHash (st.ReadTxLookup t.Hash).1 false).1 with
  | none => simp [hb, types.Block.Hash, types.Block.Number]
  | some block => simp [hb]

/-- C6: the theorem at a concrete pool. -/
theorem C6_queued_block_context_witness :
    ∃ Q r, exOut.resp.Queued = some Q ∧ GoMap.find2 Q ⟨2⟩ 5 = some r ∧
      (r.BlockHash, r.BlockNumber) = specResolve exStore exTx1.Hash :=
  C6_queued_block_context exStore exHeap exOut (by decide)
    (by unfold GoMap.WF2 GoMap.WF; decide) ⟨2⟩ 5 1 exTx1 (by decide) (by decide)

theorem exAddrString_injective : Function.Injective exAddrString := by
  intro a b h
  cases a
  cases b
  simpa [exAddrString] using fmtUint_injective h

/-- C7: for every pool snapshot and every (address, nonce, tx) triple of the pending
(respectively queued) set, `Inspect` maps the keys `address.String()` and the decimal
string of the nonce to the decimal value, ` wei + `, the decimal gas, ` gas x `, the decimal
gas price and ` wei`; for value 1000, gas 21000 and gas price 1000000000 the message is
`1000 wei + 21000 gas x 1000000000 wei`. Distinct addresses have distinct `String()`
forms. -/
theorem C7_inspect_messages (addrString : types.Address → String)
    (hinj : Function.Injective addrString) (st : Store) (heap : Heap)
    (out : InspectResponse × Option String) (h : Inspect addrString st heap = some out)
    (hwfP : GoMap.WF2 st.GetTxs.1) (hwfQ : GoMap.WF2 st.GetTxs.2) :
    ∃ P Q, out.1.Pending = some P ∧ out.1.Queued = some Q ∧
      (∀ a n p t v g, GoMap.find2 st.GetTxs.1 a n = some p → heap[p]? = some t →
        t.Value = some v → t.GasPrice = some g →
        GoMap.find2 P (addrString a) (toString n)
          = some (toString v ++ " wei + " ++ toString t.Gas ++ " gas x " ++ toString g
              ++ " wei")) ∧
      (∀ a n p t v g, GoMap.find2 st.GetTxs.2 a n = some p → heap[p]? = some t →
        t.Value = some v → t.GasPrice = some g →
        GoMap.find2 Q (addrString a) (toString n)
          = some (toString v ++ " wei + " ++ toString t.Gas ++ " gas x " ++ toString g
              ++ " wei")) ∧
      ∀ t : types.Transaction, t.Value = some 1000 → t.Gas = 21000 →
        t.GasPrice = some 1000000000 →
        inspectMsg t = "1000 wei + 21000 gas x 1000000000 wei" := by
  obtain ⟨_, P, Q, hP, hQ, hbP, hbQ⟩ := Inspect_spec addrString st heap out h
  refine ⟨P, Q, hP, hQ, ?_, ?_, ?_⟩
  · intro a n p t v g hf ht hv hg
    have h1 := inspect_build_find2 addrString hinj heap _ hwfP P hbP a n p hf
    rw [show toString n = fmtUint n from rfl, h1]
    simp [msgAt, ht, inspectMsg, hv, hg, fmtBig, fmtUint]
  · intro a n p t v g hf ht hv hg
    have h1 := inspect_build_find2 addrString hinj heap _ hwfQ Q hbQ a n p hf
    rw [show toString n = fmtUint n from rfl, h1]
    simp [msgAt, ht, inspectMsg, hv, hg, fmtBig, fmtUint]
  · intro t hv hgas hg
    simp only [inspectMsg, hv, hgas, hg]
    decide

/-- C7: the theorem at a concrete pool. -/
theorem C7_inspect_messages_witness :
    ∃ P Q, exInspectOut.1.Pending = some P ∧ exInspectOut.1.Queued = some Q ∧
      (∀ a n p t v g, GoMap.find2 exStore.GetTxs.1 a n = some p → exHeap[p]? = some t →
        t.Value = some v → t.GasPrice = some g →
        GoMap.find2 P (exAddrString a) (toString n)
          = some (toString v ++ " wei + " ++ toString t.Gas ++ " gas x " ++ toString g
              ++ " wei")) ∧
      (∀ a n p t v g, GoMap.find2 exStore.GetTxs.2 a n = some p → exHeap[p]? = some t →
        t.Value = some v → t.GasPrice = some g →
        GoMap.find2 Q (exAddrString a) (toString n)
          = some (toString v ++ " wei + " ++ toString t.Gas ++ " gas x " ++ toString g
              ++ " wei")) ∧
      ∀ t : types.Transaction, t.Value = some 1000 → t.Gas = 21000 →
        t.GasPrice = some 1000000000 →
        inspectMsg t = "1000 wei + 21000 gas x 1000000000 wei" :=
  C7_inspect_messages exAddrString exAddrString_injective exStore exHeap exInspectOut
    (by decide) (by unfold GoMap.WF2 GoMap.WF; decide) (by unfold GoMap.WF2 GoMap.WF; decide)

/-- C8, as stated, fails: on a pool whose only transaction has no gas price, `Content`
does not return (it dereferences the nil gas price). -/
theorem C8_counterexample :
    exTxUnpriced.GasPrice = none ∧ Content exStoreOne [exTxUnpriced] = none := by
  decide

/-- C8, amended: for every pool snapshot without nil transactions and every behaviour of
`ReadTxLookup` and `GetBlockByHash`, `Status` and `Inspect` run to completion and return a
nil error, whatever fields of the transactions are absent; `Content` does so when every
pooled transaction has a gas price and a value, whether or not its recipient, `r` or `s`
is absent. -/
theorem C8_operations_return (addrString : types.Address → String) (st : Store) (heap : Heap)
    (hp : AllPresent heap (reachable st)) :
    (Status st).2 = none ∧
      (∃ out, Inspect addrString st heap = some out ∧ out.2 = none) ∧
      (AllPriced heap (reachable st) → ∃ o, Content st heap = some o ∧ o.err = none) := by
  refine ⟨rfl, ?_, ?_⟩
  · obtain ⟨out, hout⟩ := Inspect_total addrString st heap hp
    exact ⟨out, hout, (Inspect_spec addrString st heap out hout).1⟩
  · intro hpr
    obtain ⟨o, ho⟩ := Content_total st heap hp hpr
    exact ⟨o, ho, (Content_spec st heap o ho).2.1⟩

/-- C8: the theorem at a concrete pool. -/
theorem C8_operations_return_witness :
    (Status exStore).2 = none ∧
      (∃ out, Inspect exAddrString exStore exHeap = some out ∧ out.2 = none) ∧
      (AllPriced exHeap (reachable exStore) →
        ∃ o, Content exStore exHeap = some o ∧ o.err = none) :=
  C8_operations_return exAddrString exStore exHeap (by unfold AllPresent; decide)

/-- C9: for every pool snapshot, the pending (respectively queued) mapping returned by
`Content` has the address keys of the pool's pending (respectively queued) set and, under
each address, its nonce keys (an address with no nonces maps to an empty inner mapping);
the value at (address, nonce) is the pending record of the pool's transaction there
(respectively its queued record, built with its resolved block and `txIndex` 0). -/
theorem C9_content_mappings (st : Store) (heap : Heap) (o : Returned ContentResponse)
    (h : Content st heap = some o) (hwfP : GoMap.WF2 st.GetTxs.1)
    (hwfQ : GoMap.WF2 st.GetTxs.2) :
    ∃ P Q, o.resp.Pending = some P ∧ o.resp.Queued = some Q ∧
      RecordsOf toGethPendingTransaction st heap st.GetTxs.1 P ∧
      RecordsOf (fun t b => toGethQueuedTransaction t b 0) st heap st.GetTxs.2 Q := by
  obtain ⟨_, _, P, Q, hP, hQ, hoP, hoQ⟩ := Content_spec st heap o h
  exact ⟨P, Q, hP, hQ, outerOf_RecordsOf _ st heap _ hwfP P hoP,
    outerOf_RecordsOf queuedMk st heap _ hwfQ Q hoQ⟩

/-- C9: the theorem at a concrete pool. -/
theorem C9_content_mappings_witness :
    ∃ P Q, exOut.resp.Pending = some P ∧ exOut.resp.Queued = some Q ∧
      RecordsOf toGethPendingTransaction exStore exHeap exStore.GetTxs.1 P ∧
      RecordsOf (fun t b => toGethQueuedTransaction t b 0) exStore exHeap exStore.GetTxs.2 Q :=
  C9_content_mappings exStore exHeap exOut (by decide)
    (by unfold GoMap.WF2 GoMap.WF; decide) (by unfold GoMap.WF2 GoMap.WF; decide)

/-- C10: calling `Content` twice in sequence, the store's `GetTxs`, `ReadTxLookup` and
`GetBlockByHash` unchanged between the calls (the second call may visit the maps in another
order), yields two results that are equal as nested mappings: the same keys and equal
records, for every initial pool snapshot, also with transactions whose `r` or `s` is nil. -/
theorem C10_content_repeatable (st st' : Store) (heap : Heap) (o1 : Returned ContentResponse)
    (hrl : st'.ReadTxLookup = st.ReadTxLookup) (hgb : st'.GetBlockByHash = st.GetBlockByHash)
    (hP : SameMap2 st.GetTxs.1 st'.GetTxs.1) (hQ : SameMap2 st.GetTxs.2 st'.GetTxs.2)
    (hwf : GoMap.WF2 st.GetTxs.1 ∧ GoMap.WF2 st.GetTxs.2)
    (hwf' : GoMap.WF2 st'.GetTxs.1 ∧ GoMap.WF2 st'.GetTxs.2)
    (h1 : Content st heap = some o1) :
    ∃ o2 P1 Q1 P2 Q2, Content st' o1.heap = some o2 ∧
      o1.resp.Pending = some P1 ∧ o1.resp.Queued = some Q1 ∧
      o2.resp.Pending = some P2 ∧ o2.resp.Queued = some Q2 ∧
      SameMap2 P1 P2 ∧ SameMap2 Q1 Q2 := by
  obtain ⟨hh, _, P1, Q1, hP1, hQ1, hoP1, hoQ1⟩ := Content_spec st heap o1 h1
  have hrecP : recordAt toGethPendingTransaction st' o1.heap
      = recordAt toGethPendingTransaction st heap :=
    funext (recordAt_congr _ MkLaw_pending st st' hrl hgb heap o1.heap _ hh)
  have hrecQ : recordAt queuedMk st' o1.heap = recordAt queuedMk st heap :=
    funext (recordAt_congr _ MkLaw_queued st st' hrl hgb heap o1.heap _ hh)
  cases h2 : Content st' o1.heap with
  | none =>
    rcases Content_eq_none st' o1.heap h2 with hn | hn
    · rw [hrecP] at hn
      exact absurd hn (outerOf_same_ne_none _ _ _ hwf.1 hwf'.1 hP P1 hoP1)
    · rw [hrecQ] at hn
      exact absurd hn (outerOf_same_ne_none _ _ _ hwf.2 hwf'.2 hQ Q1 hoQ1)
  | some o2 =>
    obtain ⟨_, _, P2, Q2, hP2, hQ2, hoP2, hoQ2⟩ := Content_spec st' o1.heap o2 h2
    rw [hrecP] at hoP2
    rw [hrecQ] at hoQ2
    exact ⟨o2, P1, Q1, P2, Q2, rfl, hP1, hQ1, hP2, hQ2,
      outerOf_same _ _ _ hwf.1 hwf'.1 hP P1 P2 hoP1 hoP2,
      outerOf_same _ _ _ hwf.2 hwf'.2 hQ Q1 Q2 hoQ1 hoQ2⟩

theorem exStoreTwo_same : SameMap2 exStoreTwo.GetTxs.1 exStoreTwoSwapped.GetTxs.1 := by
  constructor
  · intro a
    by_cases h1 : (⟨1⟩ : types.Address) = a
    · subst h1
      decide
    · by_cases h2 : (⟨2⟩ : types.Address) = a
      · subst h2
        decide
      · simp [exStoreTwo, exStoreTwoSwapped, GoMap.find, h1, h2]
  · intro a n
    by_cases h1 : (⟨1⟩ : types.Address) = a
    · subst h1
      simp [exStoreTwo, exStoreTwoSwapped, GoMap.find2, GoMap.find]
    · by_cases h2 : (⟨2⟩ : types.Address) = a
      · subst h2
        simp [exStoreTwo, exStoreTwoSwapped, GoMap.find2, GoMap.find]
      · simp [exStoreTwo, exStoreTwoSwapped, GoMap.find2, GoMap.find, h1, h2]

/-- C10: the theorem at a concrete pool. -/
theorem C10_content_repeatable_witness :
    ∃ o2 P1 Q1 P2 Q2, Content exStoreTwoSwapped exOutTwo.heap = some o2 ∧
      exOutTwo.resp.Pending = some P1 ∧ exOutTwo.resp.Queued = some Q1 ∧
      o2.resp.Pending = some P2 ∧ o2.resp.Queued = some Q2 ∧
      SameMap2 P1 P2 ∧ SameMap2 Q1 Q2 :=
  C10_content_repeatable exStoreTwo exStoreTwoSwapped exHeap exOutTwo rfl rfl exStoreTwo_same
    ⟨fun _ => rfl, fun _ _ => rfl⟩
    ⟨by unfold GoMap.WF2 GoMap.WF; decide, by unfold GoMap.WF2 GoMap.WF; decide⟩
    ⟨by unfold GoMap.WF2 GoMap.WF; decide, by unfold GoMap.WF2 GoMap.WF; decide⟩ (by decide)

end jsonrpc

/-! ## The shape of built maps -/

namespace GoMap
variable {K V W K' : Type}

theorem put_of_not_mem [DecidableEq K] (m : GoMap K V) (k : K) (v : V)
    (h : k ∉ m.map Prod.fst) : put m k v = m ++ [(k, v)] := by
  induction m with
  | nil => simp [put]
  | cons e rest ih =>
    obtain ⟨k0, v0⟩ := e
    simp only [List.map_cons, List.mem_cons, not_or] at h
    have h0 : ¬ k0 = k := fun e => h.1 e.symm
    simp [put, h0, ih h.2]

/-- The keys of a built map, when the written keys are new and pairwise distinct: those
of the start map followed by the written ones, in order. -/
theorem build_keys [DecidableEq K'] (g : K → K') (f : V → Option W) :
    ∀ (l : List (K × V)) (m m' : GoMap K' W), (l.map (fun e => g e.1)).Nodup →
      (∀ e ∈ l, g e.1 ∉ m.map Prod.fst) → build g f l m = some m' →
      m'.map Prod.fst = m.map Prod.fst ++ l.map (fun e => g e.1) := by
  intro l
  induction l with
  | nil =>
    intro m m' _ _ h
    simp only [build, Option.some.injEq] at h
    simp [h]
  | cons e0 rest ih =>
    obtain ⟨k, v⟩ := e0
    intro m m' hnd hdis h
    simp only [List.map_cons, List.nodup_cons] at hnd
    cases hf : f v with
    | none => simp [build, hf] at h
    | some w =>
      simp only [build, hf] at h
      have hk : g k ∉ m.map Prod.fst := hdis (k, v) (List.mem_cons_self _ _)
      rw [put_of_not_mem m (g k) w hk] at h
      have hdis' : ∀ e ∈ rest, g e.1 ∉ (m ++ [(g k, w)]).map Prod.fst := by
        intro e he hmem
        simp only [List.map_append, List.map_cons, List.map_nil, List.mem_append,
          List.mem_singleton] at hmem
        rcases hmem with hmem | hmem
        · exact hdis e (List.mem_cons_of_mem _ he) hmem
        · exact hnd.1 (List.mem_map.2 ⟨e, he, hmem⟩)
      rw [ih _ _ hnd.2 hdis' h]
      simp

/-- The total weight of a built map, when the written keys are new and pairwise distinct
and each written value weighs what its source weighs. -/
theorem build_sum [DecidableEq K'] (g : K → K') (f : V → Option W) (wt : V → Nat)
    (wt' : W → Nat) :
    ∀ (l : List (K × V)) (m m' : GoMap K' W), (l.map (fun e => g e.1)).Nodup →
      (∀ e ∈ l, g e.1 ∉ m.map Prod.fst) →
      (∀ e ∈ l, ∀ w, f e.2 = some w → wt' w = wt e.2) → build g f l m = some m' →
      (m'.map (fun e => wt' e.2)).sum
        = (m.map (fun e => wt' e.2)).sum + (l.map (fun e => wt e.2)).sum := by
  intro l
  induction l with
  | nil =>
    intro m m' _ _ _ h
    simp only [build, Option.some.injEq] at h
    simp [h]
  | cons e0 rest ih =>
    obtain ⟨k, v⟩ := e0
    intro m m' hnd hdis hw h
    simp only [List.map_cons, List.nodup_cons] at hnd
    cases hf : f v with
    | none => simp [build, hf] at h
    | some w =>
      simp only [build, hf] at h
      have hk : g k ∉ m.map Prod.fst := hdis (k, v) (List.mem_cons_self _ _)
      rw [put_of_not_mem m (g k) w hk] at h
      have hdis' : ∀ e ∈ rest, g e.1 ∉ (m ++ [(g k, w)]).map Prod.fst := by
        intro e he hmem
        simp only [List.map_append, List.map_cons, List.map_nil, List.mem_append,
          List.mem_singleton] at hmem
        rcases hmem with hmem | hmem
        · exact hdis e (List.mem_cons_of_mem _ he) hmem
        · exact hnd.1 (List.mem_map.2 ⟨e, he, hmem⟩)
      rw [ih _ _ hnd.2 hdis' (fun e he => hw e (List.mem_cons_of_mem _ he)) h]
      have hwv : wt' w = wt v := hw (k, v) (List.mem_cons_self _ _) w hf
      simp [hwv, Nat.add_assoc]

/-- A map built from the empty map with pairwise distinct keys has one entry per write. -/
theorem build_length [DecidableEq K'] (g : K → K') (f : V → Option W) (l : List (K × V))
    (m' : GoMap K' W) (hnd : (l.map (fun e => g e.1)).Nodup) (h : build g f l [] = some m') :
    m'.length = l.length ∧ WF m' := by
  have hk := build_keys g f l [] m' hnd (fun _ _ => by simp) h
  simp only [List.map_nil, List.nil_append] at hk
  constructor
  · have := congrArg List.length hk
    simpa using this
  · unfold WF
    rw [hk]
    exact hnd

/-- A nested map built from the empty map with pairwise distinct keys at both levels holds
as many entries as its source, and is well formed. -/
theorem build2_entries {K2 W2 V2 : Type} [DecidableEq K'] [DecidableEq K2] (g : K → K')
    (g2 : W2 → K2) (f : V2 → Option V) (txs : GoMap K (GoMap W2 V2))
    (m' : GoMap K' (GoMap K2 V)) (hnd : (txs.map (fun e => g e.1)).Nodup)
    (hnd2 : ∀ e ∈ txs, (e.2.map (fun x => g2 x.1)).Nodup)
    (h : build g (fun ns => build g2 f ns []) txs [] = some m') :
    entries2 m' = entries2 txs ∧ WF2 m' := by
  have hs := build_sum g (fun ns => build g2 f ns []) List.length List.length txs [] m' hnd
    (fun _ _ => by simp)
    (fun e he w hw => (build_length g2 f e.2 w (hnd2 e he) hw).1) h
  have hl := build_length g _ txs m' hnd h
  refine ⟨by simpa [entries2] using hs, hl.2, ?_⟩
  intro e' he'
  have hfind := find_of_mem m' hl.2 e'.1 e'.2 he'
  rcases build_find_prov g _ txs [] m' h e'.1 e'.2 hfind with h1 | ⟨e, he, h1⟩
  · simp [find] at h1
  · exact (build_length g2 f e.2 e'.2 (hnd2 e he) h1).2

end GoMap

/-! ## The remaining claims -/

namespace jsonrpc

theorem argUint64OfInt_of_int (i : Int) (hi0 : 0 ≤ i) (hi : i < 2 ^ 63) :
    (argUint64OfInt i : Int) = i := by
  unfold argUint64OfInt
  have h1 : i % (2 ^ 64 : Int) = i := Int.emod_eq_of_lt hi0 (by omega)
  rw [h1]
  exact Int.toNat_of_nonneg hi0

theorem pending_eq (t : types.Transaction) (b : types.Block) (g v : Int)
    (h1 : t.GasPrice = some g) (h2 : t.Value = some v) :
    toGethPendingTransaction t b = some (defaultSig t, pendingRecordOf (defaultSig t) g v b) := by
  simp [toGethPendingTransaction, defaultSig_GasPrice, defaultSig_Value, h1, h2,
    pendingRecordOf]

theorem queued_eq (t : types.Transaction) (b : types.Block) (i g v : Int)
    (h1 : t.GasPrice = some g) (h2 : t.Value = some v) :
    toGethQueuedTransaction t b i
      = some (defaultSig t, queuedRecordOf (defaultSig t) g v b i) := by
  simp [toGethQueuedTransaction, defaultSig_GasPrice, defaultSig_Value, h1, h2,
    queuedRecordOf]

/-- C11: for every pool snapshot and store behaviour, every record in the queued part of
the result of `Content` has `transactionIndex` 0, whether or not a block was found; and
`toGethQueuedTransaction(t, b, i)` returns a record whose `transactionIndex` is the
caller-supplied `i`, for every non-negative `int` `i`. -/
theorem C11_queued_tx_index (st : Store) (heap : Heap) (o : Returned ContentResponse)
    (h : Content st heap = some o) (t : types.Transaction) (b : types.Block) (i : Int)
    (hi0 : 0 ≤ i) (hi : i < 2 ^ 63) (hg : t.GasPrice ≠ none) (hv : t.Value ≠ none) :
    (∃ Q, o.resp.Queued = some Q ∧ ∀ a n r, GoMap.find2 Q a n = some r → r.TxIndex = 0) ∧
      ∃ t' r, toGethQueuedTransaction t b i = some (t', r) ∧ (r.TxIndex : Int) = i := by
  constructor
  · obtain ⟨_, _, P, Q, _, hQ, _, hoQ⟩ := Content_spec st heap o h
    refine ⟨Q, hQ, ?_⟩
    intro a n r hr
    obtain ⟨p, _, hrec⟩ := outerOf_prov _ _ Q hoQ a n r hr
    obtain ⟨t0, t', _, hm⟩ := recordAt_some hrec
    obtain ⟨_, _, _, _, _, h6⟩ := queued_fields hm
    rw [h6]
    rfl
  · cases hm : toGethQueuedTransaction t b i with
    | none => exact absurd hm (queued_total t b i hg hv)
    | some x =>
      obtain ⟨t', r⟩ := x
      obtain ⟨_, _, _, _, _, h6⟩ := queued_fields hm
      exact ⟨t', r, rfl, by rw [h6]; exact argUint64OfInt_of_int i hi0 hi⟩

/-- C11: the theorem at a concrete pool, with `txIndex` 3. -/
theorem C11_queued_tx_index_witness :
    (∃ Q, exOut.resp.Queued = some Q ∧ ∀ a n r, GoMap.find2 Q a n = some r → r.TxIndex = 0) ∧
      ∃ t' r, toGethQueuedTransaction exTx1 exBlock 3 = some (t', r) ∧ (r.TxIndex : Int) = 3 :=
  C11_queued_tx_index exStore exHeap exOut (by decide) exTx1 exBlock 3 (by decide) (by decide)
    (by decide) (by decide)

/-- C12: for every transaction `t` (with a gas price and a value), block `b` and index `i`,
the queued record and the pending record agree on the eleven shared fields, and each of
nonce, gasPrice, gas, to, value, input, v, hash and from is the field of `t`. -/
theorem C12_shared_fields (t : types.Transaction) (b : types.Block) (i : Int)
    (hg : t.GasPrice ≠ none) (hv : t.Value ≠ none) :
    ∃ t1 p t2 q, toGethPendingTransaction t b = some (t1, p) ∧
      toGethQueuedTransaction t b i = some (t2, q) ∧
      (q.Nonce = p.Nonce ∧ q.GasPrice = p.GasPrice ∧ q.Gas = p.Gas ∧ q.To = p.To ∧
        q.Value = p.Value ∧ q.Input = p.Input ∧ q.V = p.V ∧ q.R = p.R ∧ q.S = p.S ∧
        q.Hash = p.Hash ∧ q.From = p.From) ∧
      (p.Nonce = t.Nonce ∧ some p.GasPrice = t.GasPrice ∧ p.Gas = t.Gas ∧ p.To = t.To ∧
        some p.Value = t.Value ∧ p.Input = t.Input ∧ p.V = t.V ∧ p.Hash = t.Hash ∧
        p.From = t.From) := by
  cases h1 : t.GasPrice with
  | none => exact absurd h1 hg
  | some g =>
    cases h2 : t.Value with
    | none => exact absurd h2 hv
    | some v =>
      refine ⟨_, _, _, _, pending_eq t b g v h1 h2, queued_eq t b i g v h1 h2, ?_, ?_⟩
      · simp [pendingRecordOf, queuedRecordOf]
      · simp [pendingRecordOf, defaultSig_eq]

/-- C12: the theorem at a concrete transaction. -/
theorem C12_shared_fields_witness :
    ∃ t1 p t2 q, toGethPendingTransaction exTx0 exBlock = some (t1, p) ∧
      toGethQueuedTransaction exTx0 exBlock 0 = some (t2, q) ∧
      (q.Nonce = p.Nonce ∧ q.GasPrice = p.GasPrice ∧ q.Gas = p.Gas ∧ q.To = p.To ∧
        q.Value = p.Value ∧ q.Input = p.Input ∧ q.V = p.V ∧ q.R = p.R ∧ q.S = p.S ∧
        q.Hash = p.Hash ∧ q.From = p.From) ∧
      (p.Nonce = exTx0.Nonce ∧ some p.GasPrice = exTx0.GasPrice ∧ p.Gas = exTx0.Gas ∧
        p.To = exTx0.To ∧ some p.Value = exTx0.Value ∧ p.Input = exTx0.Input ∧
        p.V = exTx0.V ∧ p.Hash = exTx0.Hash ∧ p.From = exTx0.From) :=
  C12_shared_fields exTx0 exBlock 0 (by decide) (by decide)

/-- C13: when `GetTxs()` returns an empty pending set and an empty queued set, `Status`
returns pending 0 and queued 0, `Content` returns an empty, non-nil nested mapping for
both sets, and `Inspect` returns an empty, non-nil mapping for both sets. -/
theorem C13_empty_pool (addrString : types.Address → String) (st : Store) (heap : Heap)
    (h : st.GetTxs = ([], [])) :
    (Status st).1 = { Pending := 0, Queued := 0 } ∧
      (∃ o, Content st heap = some o ∧ o.resp.Pending = some [] ∧ o.resp.Queued = some []) ∧
      ∃ out, Inspect addrString st heap = some out ∧ out.1.Pending = some [] ∧
        out.1.Queued = some [] := by
  refine ⟨?_, ?_, ?_⟩
  · simp [Status, h, statusCount]
  · exact ⟨{ resp := { Pending := some [], Queued := some [] }, err := none, heap := heap },
      by simp [Content, h, contentAddresses], rfl, rfl⟩
  · exact ⟨({ Pending := some [], Queued := some [] }, none),
      by simp [Inspect, h, inspectAddresses], rfl, rfl⟩

/-- C13: the theorem at the empty pool. -/
theorem C13_empty_pool_witness :
    (Status exStoreEmpty).1 = { Pending := 0, Queued := 0 } ∧
      (∃ o, Content exStoreEmpty exHeap = some o ∧ o.resp.Pending = some [] ∧
        o.resp.Queued = some []) ∧
      ∃ out, Inspect exAddrString exStoreEmpty exHeap = some out ∧ out.1.Pending = some [] ∧
        out.1.Queued = some [] :=
  C13_empty_pool exAddrString exStoreEmpty exHeap rfl

/-- The pending record `Content` returns for a pending transaction of the snapshot. -/
theorem pending_record_at (st : Store) (heap : Heap) (o : Returned ContentResponse)
    (h : Content st heap = some o) (hwf : GoMap.WF2 st.GetTxs.1)
    (a : types.Address) (n : Nat) (p : TxPtr) (t : types.Transaction)
    (hq : GoMap.find2 st.GetTxs.1 a n = some p) (ht : heap[p]? = some t) :
    ∃ P r t', o.resp.Pending = some P ∧ GoMap.find2 P a n = some r ∧
      toGethPendingTransaction t (contentBlock st t.Hash) = some (t', r) := by
  obtain ⟨_, _, P, Q, hP, _, hoP, _⟩ := Content_spec st heap o h
  obtain ⟨h1, h2⟩ := outerOf_find2 _ _ hwf P hoP a n p hq
  obtain ⟨r, hr⟩ := recordAt_ne_none_some h2
  obtain ⟨t0, t', ht0, hm⟩ := recordAt_some hr
  rw [ht] at ht0
  simp only [Option.some.injEq] at ht0
  subst ht0
  exact ⟨P, r, t', hP, by rw [h1, hr], hm⟩

/-- C14: for every pending transaction, the `blockHash` of its record in `Content` is a
hash, not null: the hash of the block `GetBlockByHash` yields for the hash returned by
`ReadTxLookup`, and that returned hash when it yields none; `blockNumber` and
`transactionIndex` of the record are null. -/
theorem C14_pending_block_hash (st : Store) (heap : Heap) (o : Returned ContentResponse)
    (h : Content st heap = some o) (hwf : GoMap.WF2 st.GetTxs.1)
    (a : types.Address) (n : Nat) (p : TxPtr) (t : types.Transaction)
    (hq : GoMap.find2 st.GetTxs.1 a n = some p) (ht : heap[p]? = some t) :
    ∃ P r, o.resp.Pending = some P ∧ GoMap.find2 P a n = some r ∧
      (∀ block, (st.GetBlockByHash (st.ReadTxLookup t.Hash).1 false).1 = some block →
        r.BlockHash = some block.Hash) ∧
      ((st.GetBlockByHash (st.ReadTxLookup t.Hash).1 false).1 = none →
        r.BlockHash = some (st.ReadTxLookup t.Hash).1) ∧
      r.BlockNumber = none ∧ r.TxIndex = none := by
  obtain ⟨P, r, t', hP, hr, hm⟩ := pending_record_at st heap o h hwf a n p t hq ht
  obtain ⟨_, _, _, h4, h5, h6⟩ := pending_fields hm
  refine ⟨P, r, hP, hr, ?_, ?_, h5, h6⟩
  · intro block hb
    rw [h4]
    simp [contentBlock, hb]
  · intro hb
    rw [h4]
    simp [contentBlock, hb, types.Block.Hash]

/-- C14: the theorem at a concrete pool. -/
theorem C14_pending_block_hash_witness :
    ∃ P r, exOut.resp.Pending = some P ∧ GoMap.find2 P ⟨1⟩ 0 = some r ∧
      (∀ block, (exStore.GetBlockByHash (exStore.ReadTxLookup exTx0.Hash).1 false).1
          = some block → r.BlockHash = some block.Hash) ∧
      ((exStore.GetBlockByHash (exStore.ReadTxLookup exTx0.Hash).1 false).1 = none →
        r.BlockHash = some (exStore.ReadTxLookup exTx0.Hash).1) ∧
      r.BlockNumber = none ∧ r.TxIndex = none :=
  C14_pending_block_hash exStore exHeap exOut (by decide)
    (by unfold GoMap.WF2 GoMap.WF; decide) ⟨1⟩ 0 0 exTx0 (by decide) (by decide)

/-- C15: for every pool snapshot, `Status().pending` is the total number of
(address, nonce) entries of the pending mapping returned by `Content` on the same snapshot,
and `Status().queued` the total number of entries of its queued mapping. -/
theorem C15_status_counts_content (st : Store) (heap : Heap) (o : Returned ContentResponse)
    (h : Content st heap = some o) (hwfP : GoMap.WF2 st.GetTxs.1)
    (hwfQ : GoMap.WF2 st.GetTxs.2) :
    ∃ P Q, o.resp.Pending = some P ∧ o.resp.Queued = some Q ∧
      GoMap.WF2 P ∧ GoMap.WF2 Q ∧
      (Status st).1.Pending = GoMap.entries2 P ∧ (Status st).1.Queued = GoMap.entries2 Q := by
  obtain ⟨_, _, P, Q, hP, hQ, hoP, hoQ⟩ := Content_spec st heap o h
  obtain ⟨h1, h2⟩ := GoMap.build2_entries id id _ st.GetTxs.1 P hwfP.1 hwfP.2 hoP
  obtain ⟨h3, h4⟩ := GoMap.build2_entries id id _ st.GetTxs.2 Q hwfQ.1 hwfQ.2 hoQ
  refine ⟨P, Q, hP, hQ, h2, h4, ?_, ?_⟩
  · rw [h1]
    simp [Status, statusCount_eq, GoMap.entries2]
  · rw [h3]
    simp [Status, statusCount_eq, GoMap.entries2]

/-- C15: the theorem at a concrete pool. -/
theorem C15_status_counts_content_witness :
    ∃ P Q, exOut.resp.Pending = some P ∧ exOut.resp.Queued = some Q ∧
      GoMap.WF2 P ∧ GoMap.WF2 Q ∧
      (Status exStore).1.Pending = GoMap.entries2 P ∧
      (Status exStore).1.Queued = GoMap.entries2 Q :=
  C15_status_counts_content exStore exHeap exOut (by decide)
    (by unfold GoMap.WF2 GoMap.WF; decide) (by unfold GoMap.WF2 GoMap.WF; decide)

/-- C16: for every transaction `t` (with a gas price and a value) and block `b`, after
`toGethPendingTransaction(t, b)` (or `toGethQueuedTransaction(t, b, i)`) has run, `r` and
`s` of `t` are both non-nil, and running the same constructor again on the resulting `t`
returns a record equal to the first one and leaves `t` unchanged. -/
theorem C16_constructor_idempotent (t : types.Transaction) (b : types.Block) (i : Int)
    (hg : t.GasPrice ≠ none) (hv : t.Value ≠ none) :
    (∃ t1 r1, toGethPendingTransaction t b = some (t1, r1) ∧ t1.R ≠ none ∧ t1.S ≠ none ∧
        toGethPendingTransaction t1 b = some (t1, r1)) ∧
      ∃ t2 r2, toGethQueuedTransaction t b i = some (t2, r2) ∧ t2.R ≠ none ∧ t2.S ≠ none ∧
        toGethQueuedTransaction t2 b i = some (t2, r2) := by
  cases h1 : t.GasPrice with
  | none => exact absurd h1 hg
  | some g =>
    cases h2 : t.Value with
    | none => exact absurd h2 hv
    | some v =>
      have h1' : (defaultSig t).GasPrice = some g := by rw [defaultSig_GasPrice, h1]
      have h2' : (defaultSig t).Value = some v := by rw [defaultSig_Value, h2]
      have hp := pending_eq (defaultSig t) b g v h1' h2'
      have hq := queued_eq (defaultSig t) b i g v h1' h2'
      rw [defaultSig_idem] at hp hq
      have hR : (defaultSig t).R ≠ none := by simp [defaultSig_eq]
      have hS : (defaultSig t).S ≠ none := by simp [defaultSig_eq]
      exact ⟨⟨_, _, pending_eq t b g v h1 h2, hR, hS, hp⟩,
        ⟨_, _, queued_eq t b i g v h1 h2, hR, hS, hq⟩⟩

/-- C16: the theorem at a concrete transaction. -/
theorem C16_constructor_idempotent_witness :
    (∃ t1 r1, toGethPendingTransaction exTx0 exBlock = some (t1, r1) ∧ t1.R ≠ none ∧
        t1.S ≠ none ∧ toGethPendingTransaction t1 exBlock = some (t1, r1)) ∧
      ∃ t2 r2, toGethQueuedTransaction exTx0 exBlock 0 = some (t2, r2) ∧ t2.R ≠ none ∧
        t2.S ≠ none ∧ toGethQueuedTransaction t2 exBlock 0 = some (t2, r2) :=
  C16_constructor_idempotent exTx0 exBlock 0 (by decide) (by decide)

/-- C17: when distinct addresses have distinct `String()` forms, for every pool snapshot
the total number of (address string, nonce string) entries of the pending (respectively
queued) mapping of `Inspect` is `Status().pending` (respectively `Status().queued`). -/
theorem C17_inspect_counts (addrString : types.Address → String)
    (hinj : Function.Injective addrString) (st : Store) (heap : Heap)
    (out : InspectResponse × Option String) (h : Inspect addrString st heap = some out)
    (hwfP : GoMap.WF2 st.GetTxs.1) (hwfQ : GoMap.WF2 st.GetTxs.2) :
    ∃ P Q, out.1.Pending = some P ∧ out.1.Queued = some Q ∧
      GoMap.WF2 P ∧ GoMap.WF2 Q ∧
      GoMap.entries2 P = (Status st).1.Pending ∧ GoMap.entries2 Q = (Status st).1.Queued := by
  obtain ⟨_, P, Q, hP, hQ, hbP, hbQ⟩ := Inspect_spec addrString st heap out h
  have hnd : ∀ txs : GoMap types.Address (GoMap Nat TxPtr), GoMap.WF2 txs →
      (txs.map (fun e => addrString e.1)).Nodup ∧
        ∀ e ∈ txs, (e.2.map (fun x => fmtUint x.1)).Nodup := by
    intro txs hwf
    constructor
    · have := List.Nodup.map hinj hwf.1
      simpa [List.map_map] using this
    · intro e he
      have := List.Nodup.map fmtUint_injective (hwf.2 e he)
      simpa [List.map_map] using this
  obtain ⟨h1, h2⟩ := GoMap.build2_entries addrString fmtUint _ st.GetTxs.1 P
    (hnd _ hwfP).1 (hnd _ hwfP).2 hbP
  obtain ⟨h3, h4⟩ := GoMap.build2_entries addrString fmtUint _ st.GetTxs.2 Q
    (hnd _ hwfQ).1 (hnd _ hwfQ).2 hbQ
  refine ⟨P, Q, hP, hQ, h2, h4, ?_, ?_⟩
  · rw [h1]
    simp [Status, statusCount_eq, GoMap.entries2]
  · rw [h3]
    simp [Status, statusCount_eq, GoMap.entries2]

/-- C17: the theorem at a concrete pool. -/
theorem C17_inspect_counts_witness :
    ∃ P Q, exInspectOut.1.Pending = some P ∧ exInspectOut.1.Queued = some Q ∧
      GoMap.WF2 P ∧ GoMap.WF2 Q ∧
      GoMap.entries2 P = (Status exStore).1.Pending ∧
      GoMap.entries2 Q = (Status exStore).1.Queued :=
  C17_inspect_counts exAddrString exAddrString_injective exStore exHeap exInspectOut
    (by decide) (by unfold GoMap.WF2 GoMap.WF; decide) (by unfold GoMap.WF2 GoMap.WF; decide)

end jsonrpc
